import Mathlib

/-
Verification of the namespace-join initializer in `src/gonamespaces.c`
(package gons).  The C file consists of a static table `namespaces[]` of
the seven supported Linux namespace types, a process-wide error buffer
written by `logerr()`, and the initializer `gonamespaces()` which

  1. reads the order specification from the environment variable
     `gons_order` (falling back to a fixed default order),
  2. scans it token by token, recording the referenced path and, for
     `!`-marked (pre-open) tokens, an opened file descriptor in the
     static table, building a sequence of table indices, and
  3. walks the sequence, opening any not-yet-opened reference and
     issuing the `setns` system call, closing the used descriptor and
     stopping at the first failure.

The embedding below translates that code into pure Lean functions.
The outside world is represented by

  * `GEnv`   — the environment (`getenv`), a read-only map,
  * `Sys`    — oracles deciding whether a given `open` succeeds and
               whether a given `setns(fd, nstype)` call succeeds.

File descriptors are modelled by a monotone counter (`nextFd`), so
every descriptor handed out during one process lifetime is distinct;
this captures descriptor identity, which is what the claims about
"the exact descriptor" and "closed exactly once" are about.  Every
`open`, `close` and `setns` performed by the code is recorded in an
event trace.  Error messages are kept as structured values (`LogMsg`);
`renderMsg` reproduces the `printf`-format text of `logerr` calls
(minus the trailing `strerror(errno)` text, which depends on the
kernel error and is irrelevant to the claims).
-/

/-- Events: every file descriptor acquisition/release and every
`setns` syscall performed by `gonamespaces()`, in program order.
`opened fd i p`: `open(p, O_RDONLY)` returned descriptor `fd` for the
namespace-table index `i`; `closed fd`: `close(fd)`;
`setns fd i ok`: `syscall(SYS_setns, fd, namespaces[i].nstype)`
returned success iff `ok`. -/
inductive Event where
  | opened (fd : Nat) (i : Nat) (p : String)
  | closed (fd : Nat)
  | setns (fd : Nat) (i : Nat) (ok : Bool)
  deriving DecidableEq, Repr

/-- Structured contents of the error messages produced by the four
`logerr()` call sites of `gonamespaces()` (lines 145, 158/172, 164/200,
221 of `src/gonamespaces.c`). -/
inductive LogMsg where
  | unknownType (tok : String)
  | duplicateType (tok : String)
  | invalidRef (envvar : String) (path : String)
  | cannotJoin (envvar : String) (path : String)
  deriving DecidableEq, Repr

/-- The printf text of each message (the `strerror(errno)` suffix of the
open/join messages is omitted; it follows the final quote/colon). -/
def renderMsg : LogMsg → String
  | .unknownType tok =>
      "package gons: unknown namespace type \x22" ++ tok ++ "\x22 in gons_order"
  | .duplicateType tok =>
      "package gons: duplicate namespace order type " ++ tok
  | .invalidRef envvar path =>
      "package gons: invalid " ++ envvar ++ " reference \x22" ++ path ++ "\x22: "
  | .cannotJoin envvar path =>
      "package gons: cannot join " ++ envvar ++ " using reference \x22" ++ path ++ "\x22: "

/-- A row of the static `struct ns_t namespaces[]` table: the
environment-variable name and the `CLONE_NEW*` constant.  The mutable
fields (`path`, `fd`) live in the run state `St`. -/
structure NsDef where
  envvarname : String
  nstype : Nat
  deriving DecidableEq, Repr

/-- The static table from lines 60-68 of `src/gonamespaces.c`, in its
source order, with the numeric values of the `CLONE_NEW*` constants
from `<sched.h>`. -/
def namespaces : List NsDef :=
  [ ⟨"gons_cgroup", 0x02000000⟩,   -- CLONE_NEWCGROUP
    ⟨"gons_ipc",    0x08000000⟩,   -- CLONE_NEWIPC
    ⟨"gons_mnt",    0x00020000⟩,   -- CLONE_NEWNS
    ⟨"gons_net",    0x40000000⟩,   -- CLONE_NEWNET
    ⟨"gons_pid",    0x20000000⟩,   -- CLONE_NEWPID
    ⟨"gons_user",   0x10000000⟩,   -- CLONE_NEWUSER
    ⟨"gons_uts",    0x04000000⟩ ]  -- CLONE_NEWUTS

/-- `NSCOUNT` (line 71). -/
def NSCOUNT : Nat := namespaces.length

/-- Environment-variable name of table row `i` (`namespaces[i].envvarname`). -/
def nsEnvvar (i : Nat) : String := (namespaces.getD i ⟨"", 0⟩).envvarname

/-- Kernel switch constant of table row `i` (`namespaces[i].nstype`). -/
def nsType (i : Nat) : Nat := (namespaces.getD i ⟨"", 0⟩).nstype

/-- Symbolic namespace name of row `i`: `envvarname + 5` skips the
`"gons_"` prefix (all names are ASCII, one byte per character). -/
def nsSymbol (i : Nat) : String := ⟨(nsEnvvar i).data.drop 5⟩

/-- The name lookup loop of lines 139-143: the first table index whose
symbolic name equals the token, if any. -/
def nsLookup (tok : String) : Option Nat :=
  (List.range NSCOUNT).find? (fun i => decide (nsSymbol i = tok))

/-- The process environment as seen through `getenv`: unset variables
yield `none`. -/
abbrev GEnv := String → Option String

/-- Oracles for the two syscalls whose outcome the code branches on:
whether `open(path, O_RDONLY)` succeeds for a path, and whether
`syscall(SYS_setns, fd, nstype)` succeeds. -/
structure Sys where
  openOk : String → Bool
  setnsOk : Nat → Nat → Bool

/-- Program state threaded through one process lifetime:
`paths`/`fds` are the mutable `path` and `fd` fields of the static
`namespaces[]` table (index → field; `none` stands for `NULL` / `-1`),
`seq` is the local `seq[]`/`seqlen` of the current invocation,
`nextFd` the next free descriptor number, `events` the instrumentation
trace, `msg` the contents of the `gonsmsg` error buffer, and `env` the
(read-only) process environment. -/
structure St where
  env : GEnv
  paths : Nat → Option String
  fds : Nat → Option Nat
  seq : List Nat
  nextFd : Nat
  events : List Event
  msg : Option LogMsg

/-- Point update of a table field. -/
def upd {α : Type} (f : Nat → α) (i : Nat) (v : α) : Nat → α :=
  fun j => if j = i then v else f j

/-- The default order string (lines 74-75). -/
def defaultorder : String := "!user,!mnt,!cgroup,!ipc,!net,!pid,!uts"

/-- Lines 125-127: take `gons_order` from the environment, falling back
to the default order when the variable is unset or empty. -/
def orderString (env : GEnv) : String :=
  match env "gons_order" with
  | none => defaultorder
  | some s => if s = "" then defaultorder else s

/-- Comma splitting performed by the `strchr(ooorder, ',')` /
`*delimiter++ = 0` steps of the scan loop (lines 133-134, 184-188),
expressed on the character list of the (strdup-copied) order string. -/
def splitOnComma : List Char → List (List Char)
  | [] => [[]]
  | c :: cs =>
      if c = ',' then [] :: splitOnComma cs
      else
        match splitOnComma cs with
        | t :: ts => (c :: t) :: ts
        | [] => [[c]]

/-- The token list the scan loop of lines 130-189 works through: the
comma-separated pieces of the order string.  When the final piece is
empty (trailing comma, or empty string), the loop guard `*ooorder`
terminates the loop before that piece is examined, so it is dropped;
empty pieces in other positions are examined (and fail the lookup). -/
def tokensOf (s : String) : List String :=
  let ts := (splitOnComma s.data).map (fun l => (⟨l⟩ : String))
  if ts.getLast? = some "" then ts.dropLast else ts

/-- Lines 131-132: a leading `'!'` requests a pre-opened descriptor
reference and is skipped. -/
def stripMark (t : String) : Bool × String :=
  match t.data with
  | '!' :: cs => (true, ⟨cs⟩)
  | _ => (false, t)

/-- Lines 171-178: the duplicate check on the `path` field and, when it
passes, recording of path and sequence entry.  The `Bool` of the result
is `true` when the C code executed `return` (fatal error). -/
def pathCheck (st : St) (i : Nat) (p : String) (tok : String) : St × Bool :=
  match st.paths i with
  | some _ => ({ st with msg := some (.duplicateType tok) }, true)
  | none =>
      ({ st with paths := upd st.paths i (some p), seq := st.seq ++ [i] }, false)

/-- One iteration of the scan loop (lines 130-189) on one token.  The
`Bool` of the result is `true` when the C code executed `return`. -/
def parseTok (sys : Sys) (st : St) (tok0 : String) : St × Bool :=
  let fdref := (stripMark tok0).1
  let tok := (stripMark tok0).2
  match nsLookup tok with
  | none => ({ st with msg := some (.unknownType tok) }, true)
  | some i =>
      match st.env (nsEnvvar i) with
      | none => (st, false)
      | some p =>
          if p = "" then (st, false)
          else if fdref then
            match st.fds i with
            | some _ => ({ st with msg := some (.duplicateType tok) }, true)
            | none =>
                if sys.openOk p then
                  pathCheck
                    { st with
                      fds := upd st.fds i (some st.nextFd),
                      nextFd := st.nextFd + 1,
                      events := st.events ++ [.opened st.nextFd i p] }
                    i p tok
                else ({ st with msg := some (.invalidRef (nsEnvvar i) p) }, true)
          else pathCheck st i p tok

/-- The scan loop itself: tokens are consumed while `seqlen < NSCOUNT`;
a fatal error (`return`) stops everything. -/
def parseGo (sys : Sys) : List String → St → St × Bool
  | [], st => (st, false)
  | tok :: rest, st =>
      if st.seq.length < NSCOUNT then
        match parseTok sys st tok with
        | (st1, true) => (st1, true)
        | (st1, false) => parseGo sys rest st1
      else (st, false)

/-- Lines 218-225: the `setns` syscall on descriptor `fd` for table row
`i`, followed unconditionally by `close(fd)`; on failure the error is
recorded and the function returns. -/
def setnsClose (sys : Sys) (st : St) (i : Nat) (fd : Nat) : St × Bool :=
  let ok := sys.setnsOk fd (nsType i)
  let st1 := { st with events := st.events ++ [.setns fd i ok, .closed fd] }
  if ok then (st1, false)
  else ({ st1 with msg := some (.cannotJoin (nsEnvvar i) ((st.paths i).getD "")) }, true)

/-- One iteration of the switch loop (lines 192-226): use the
pre-opened descriptor if there is one, otherwise open the recorded path
now (failure → record error, return); then `setns` + `close`. -/
def joinEntry (sys : Sys) (st : St) (i : Nat) : St × Bool :=
  match st.fds i with
  | some fd => setnsClose sys st i fd
  | none =>
      let p := (st.paths i).getD ""
      if sys.openOk p then
        setnsClose sys
          { st with
            nextFd := st.nextFd + 1,
            events := st.events ++ [.opened st.nextFd i p] }
          i st.nextFd
      else ({ st with msg := some (.invalidRef (nsEnvvar i) p) }, true)

/-- The switch loop over the computed sequence. -/
def joinGo (sys : Sys) : List Nat → St → St × Bool
  | [], st => (st, false)
  | i :: rest, st =>
      match joinEntry sys st i with
      | (st1, true) => (st1, true)
      | (st1, false) => joinGo sys rest st1

/-- The scan phase of one `gonamespaces()` invocation, started on state
`st0`: the local `seq[]` is fresh (`seqlen = 0`), the order string is
obtained from the environment (and conceptually `strdup`-copied, line
129: all subsequent splitting happens on the copy). -/
def gonsParse (sys : Sys) (st0 : St) : St × Bool :=
  parseGo sys (tokensOf (orderString st0.env)) { st0 with seq := [] }

/-- One complete invocation of `gonamespaces()` from state `st0`:
scan, then — unless the scan executed `return` — the switch loop. -/
def runGonsFrom (sys : Sys) (st0 : St) : St :=
  match gonsParse sys st0 with
  | (st1, true) => st1
  | (st1, false) => (joinGo sys st1.seq st1).1

/-- Fresh process state: table fields `NULL`/`-1`, no error recorded,
nothing opened yet. -/
def initSt (env : GEnv) : St :=
  { env := env, paths := fun _ => none, fds := fun _ => none,
    seq := [], nextFd := 0, events := [], msg := none }

/-- A first invocation of `gonamespaces()` in a fresh process. -/
def runGons (sys : Sys) (env : GEnv) : St :=
  runGonsFrom sys (initSt env)

/-- Number of `close(f)` events in a trace. -/
def closedCount (es : List Event) (f : Nat) : Nat :=
  es.countP (fun e => match e with | .closed f' => f' == f | _ => false)

/-- Number of `setns` calls on descriptor `f` in a trace. -/
def setnsCount (es : List Event) (f : Nat) : Nat :=
  es.countP (fun e => match e with | .setns f' _ _ => f' == f | _ => false)

/-- Concrete environment: the seven namespace variables set to distinct
non-empty paths, no order specification. -/
def envAll : GEnv := fun s =>
  if s = "gons_cgroup" then some "/cg"
  else if s = "gons_ipc" then some "/ipc"
  else if s = "gons_mnt" then some "/mnt"
  else if s = "gons_net" then some "/net"
  else if s = "gons_pid" then some "/pid"
  else if s = "gons_user" then some "/user"
  else if s = "gons_uts" then some "/uts"
  else none

/-- Concrete system where every `open` and every `setns` succeeds. -/
def sysAll : Sys := ⟨fun _ => true, fun _ _ => true⟩


/-- Concrete environment: seven late-open tokens that fill the sequence,
followed by an unknown token `nsfoo` that the scan loop never reaches. -/
def envSevenThenBad : GEnv := fun s =>
  if s = "gons_order" then some "user,mnt,cgroup,ipc,net,pid,uts,nsfoo"
  else envAll s

/-- Concrete environment: order specification `nsfoo` (a single unknown
token). -/
def envBadTok : GEnv := fun s =>
  if s = "gons_order" then some "nsfoo" else envAll s

/-- Concrete environment: the order lists `net` twice, but `gons_net`
is unset. -/
def envDupUnset : GEnv := fun s =>
  if s = "gons_order" then some "net,net" else none

/-- Concrete environment: two pre-open entries `net`, `pid`. -/
def envTwoPre : GEnv := fun s =>
  if s = "gons_order" then some "!net,!pid"
  else if s = "gons_net" then some "/net"
  else if s = "gons_pid" then some "/pid"
  else none

/-- Concrete environment: two late-open entries `net`, `pid`. -/
def envNetPid : GEnv := fun s =>
  if s = "gons_order" then some "net,pid"
  else if s = "gons_net" then some "/net"
  else if s = "gons_pid" then some "/pid"
  else none

/-- Concrete environment: a single pre-open entry `net`. -/
def envPreNet : GEnv := fun s =>
  if s = "gons_order" then some "!net"
  else if s = "gons_net" then some "/net"
  else none

/-- Concrete system where every `open` succeeds and exactly the `setns`
call on descriptor 0 fails. -/
def sysFailFd0 : Sys := ⟨fun _ => true, fun f _ => f != 0⟩

/-- Concrete system where every `open` succeeds and exactly the `setns`
call on descriptor 1 fails. -/
def sysFailFd1 : Sys := ⟨fun _ => true, fun f _ => f != 1⟩

/-- Concrete scan state in which a path is already recorded for table
row 3 (`net`), as after scanning one `net` token. -/
def stDupWit : St :=
  { env := envTwoPre, paths := upd (fun _ => none) 3 (some "/net"),
    fds := fun _ => none, seq := [3], nextFd := 2, events := [], msg := none }

/-- Heap object the `gonsmsg` pointer can reference: the `malloc`-ed
message buffer with its current text, or the static string constant
`"malloc error"` installed when `malloc` fails (line 98). -/
inductive LogBuf where
  | heap (content : LogMsg)
  | fallback
  deriving DecidableEq, Repr

/-- `PATH_MAX` from `<limits.h>` on Linux. -/
def PATH_MAX : Nat := 4096

/-- State of the status reporter: the `gonsmsg` pointer (`none` = NULL,
line 83), `maxmsgsize` (line 84), and an instrumentation counter of
`malloc` calls performed. -/
structure LogSt where
  gonsmsg : Option LogBuf
  maxmsgsize : Nat
  allocs : Nat
  deriving DecidableEq, Repr

/-- Status-reporter state at process start. -/
def initLogSt : LogSt := { gonsmsg := none, maxmsgsize := 0, allocs := 0 }

/-- One `logerr()` call (lines 90-110).  `allocOk` resolves the `malloc`
outcome when an allocation is attempted.  While `gonsmsg` is NULL the
buffer is allocated first; if that fails, the static fallback string is
installed with `maxmsgsize = 0` and the call returns at once (lines
96-101).  Otherwise `vsnprintf(gonsmsg, maxmsgsize, ...)` writes the
message through the pointer — a write that touches nothing when
`maxmsgsize` is `0`. -/
def logerr (st : LogSt) (allocOk : Bool) (m : LogMsg) : LogSt :=
  match st.gonsmsg with
  | none =>
      if allocOk then
        { gonsmsg := some (.heap m), maxmsgsize := 256 + PATH_MAX, allocs := st.allocs + 1 }
      else
        { gonsmsg := some .fallback, maxmsgsize := 0, allocs := st.allocs + 1 }
  | some _ =>
      if st.maxmsgsize = 0 then st
      else { st with gonsmsg := some (.heap m) }

/-- A sequence of `logerr()` calls, oldest first. -/
def logFold (st : LogSt) (calls : List (Bool × LogMsg)) : LogSt :=
  calls.foldl (fun s c => logerr s c.1 c.2) st

/-- The status accessor (`gons.Status()`): reads the buffer `gonsmsg`
points to, or yields the empty indication while `gonsmsg` is NULL. -/
def gonsStatus (st : LogSt) : String :=
  match st.gonsmsg with
  | none => ""
  | some .fallback => "malloc error"
  | some (.heap m) => renderMsg m

-- ===================================================================
-- Theorems
-- ===================================================================

/-- Step lemma: scanning a pre-open (`!`-marked) token whose type is
known, whose environment variable holds a non-empty path, whose table
row has no descriptor and no path recorded yet, and whose `open`
succeeds, records descriptor and path and appends the row index to the
sequence. -/
theorem parseTok_preopen_ok (sys : Sys) (st : St) (tok0 tok : String) (i : Nat) (p : String)
    (hm : stripMark tok0 = (true, tok))
    (hl : nsLookup tok = some i)
    (he : st.env (nsEnvvar i) = some p)
    (hp : p ≠ "")
    (hf : st.fds i = none)
    (ho : sys.openOk p = true)
    (hpa : st.paths i = none) :
    parseTok sys st tok0 =
      ({ st with
          fds := upd st.fds i (some st.nextFd),
          nextFd := st.nextFd + 1,
          events := st.events ++ [.opened st.nextFd i p],
          paths := upd st.paths i (some p),
          seq := st.seq ++ [i] }, false) := by
  unfold parseTok pathCheck
  rw [hm]
  simp only [hl, he, hp, if_neg hp, if_true, hf, ho, if_pos, hpa]
  rfl

/-- Step lemma: one non-fatal scan-loop iteration. -/
theorem parseGo_cons_ok (sys : Sys) (st st1 : St) (tok : String) (rest : List String)
    (hlen : st.seq.length < NSCOUNT)
    (hstep : parseTok sys st tok = (st1, false)) :
    parseGo sys (tok :: rest) st = parseGo sys rest st1 := by
  simp only [parseGo]
  rw [if_pos hlen, hstep]

/-- C1: if `gons_order` is absent or empty and all seven namespace
environment variables are set to non-empty (openable) reference paths,
the computed join sequence is exactly the fixed default order
user, mnt, cgroup, ipc, net, pid, uts (table indices 5, 2, 0, 1, 3, 4, 6),
and every entry carries a pre-opened descriptor. -/
theorem c1_default_order_all_preopen (sys : Sys) (env : GEnv)
    (hord : env "gons_order" = none ∨ env "gons_order" = some "")
    (pcg pipc pmnt pnet ppid puser puts : String)
    (hcg : env "gons_cgroup" = some pcg) (hcgn : pcg ≠ "") (hcgo : sys.openOk pcg = true)
    (hipc : env "gons_ipc" = some pipc) (hipcn : pipc ≠ "") (hipco : sys.openOk pipc = true)
    (hmnt : env "gons_mnt" = some pmnt) (hmntn : pmnt ≠ "") (hmnto : sys.openOk pmnt = true)
    (hnet : env "gons_net" = some pnet) (hnetn : pnet ≠ "") (hneto : sys.openOk pnet = true)
    (hpid : env "gons_pid" = some ppid) (hpidn : ppid ≠ "") (hpido : sys.openOk ppid = true)
    (huser : env "gons_user" = some puser) (husern : puser ≠ "") (husero : sys.openOk puser = true)
    (huts : env "gons_uts" = some puts) (hutsn : puts ≠ "") (hutso : sys.openOk puts = true) :
    (gonsParse sys (initSt env)).2 = false ∧
    (gonsParse sys (initSt env)).1.seq = [5, 2, 0, 1, 3, 4, 6] ∧
    (∀ i ∈ (gonsParse sys (initSt env)).1.seq, (gonsParse sys (initSt env)).1.fds i ≠ none) := by
  have hts : tokensOf (orderString (initSt env).env) =
      ["!user","!mnt","!cgroup","!ipc","!net","!pid","!uts"] := by
    show tokensOf (orderString env) = _
    rcases hord with h | h <;> rw [orderString, h] <;> decide
  unfold gonsParse
  rw [hts]
  rw [parseGo_cons_ok _ _ _ _ _ (by simp [NSCOUNT, namespaces])
        (parseTok_preopen_ok sys _ "!user" "user" 5 puser (by decide) (by decide) huser husern rfl husero rfl)]
  rw [parseGo_cons_ok _ _ _ _ _ (by simp [NSCOUNT, namespaces])
        (parseTok_preopen_ok sys _ "!mnt" "mnt" 2 pmnt (by decide) (by decide) hmnt hmntn (by simp [upd, initSt]) hmnto (by simp [upd, initSt]))]
  rw [parseGo_cons_ok _ _ _ _ _ (by simp [NSCOUNT, namespaces])
        (parseTok_preopen_ok sys _ "!cgroup" "cgroup" 0 pcg (by decide) (by decide) hcg hcgn (by simp [upd, initSt]) hcgo (by simp [upd, initSt]))]
  rw [parseGo_cons_ok _ _ _ _ _ (by simp [NSCOUNT, namespaces])
        (parseTok_preopen_ok sys _ "!ipc" "ipc" 1 pipc (by decide) (by decide) hipc hipcn (by simp [upd, initSt]) hipco (by simp [upd, initSt]))]
  rw [parseGo_cons_ok _ _ _ _ _ (by simp [NSCOUNT, namespaces])
        (parseTok_preopen_ok sys _ "!net" "net" 3 pnet (by decide) (by decide) hnet hnetn (by simp [upd, initSt]) hneto (by simp [upd, initSt]))]
  rw [parseGo_cons_ok _ _ _ _ _ (by simp [NSCOUNT, namespaces])
        (parseTok_preopen_ok sys _ "!pid" "pid" 4 ppid (by decide) (by decide) hpid hpidn (by simp [upd, initSt]) hpido (by simp [upd, initSt]))]
  rw [parseGo_cons_ok _ _ _ _ _ (by simp [NSCOUNT, namespaces])
        (parseTok_preopen_ok sys _ "!uts" "uts" 6 puts (by decide) (by decide) huts hutsn (by simp [upd, initSt]) hutso (by simp [upd, initSt]))]
  rw [parseGo]
  refine ⟨rfl, by simp, ?_⟩
  intro i hi
  fin_cases hi <;> simp [upd, initSt]

/-- C1 witness: the theorem applied to a concrete environment. -/
theorem c1_default_order_all_preopen_witness :
    (gonsParse sysAll (initSt envAll)).2 = false ∧
    (gonsParse sysAll (initSt envAll)).1.seq = [5, 2, 0, 1, 3, 4, 6] ∧
    (∀ i ∈ (gonsParse sysAll (initSt envAll)).1.seq, (gonsParse sysAll (initSt envAll)).1.fds i ≠ none) :=
  c1_default_order_all_preopen sysAll envAll (Or.inl (by decide))
    "/cg" "/ipc" "/mnt" "/net" "/pid" "/user" "/uts"
    (by decide) (by decide) rfl (by decide) (by decide) rfl
    (by decide) (by decide) rfl (by decide) (by decide) rfl
    (by decide) (by decide) rfl (by decide) (by decide) rfl
    (by decide) (by decide) rfl

theorem setnsClose_same (sys : Sys) (st : St) (i fd : Nat) :
    (setnsClose sys st i fd).1.paths = st.paths ∧ (setnsClose sys st i fd).1.fds = st.fds ∧
    (setnsClose sys st i fd).1.seq = st.seq ∧ (setnsClose sys st i fd).1.env = st.env ∧
    (setnsClose sys st i fd).1.nextFd = st.nextFd := by
  simp only [setnsClose]
  split <;> simp

theorem setnsClose_events (sys : Sys) (st : St) (i fd : Nat) :
    (setnsClose sys st i fd).1.events =
      st.events ++ [.setns fd i (sys.setnsOk fd (nsType i)), .closed fd] := by
  simp only [setnsClose]
  split <;> simp

theorem joinEntry_same (sys : Sys) (st : St) (i : Nat) :
    (joinEntry sys st i).1.paths = st.paths ∧ (joinEntry sys st i).1.fds = st.fds ∧
    (joinEntry sys st i).1.seq = st.seq ∧ (joinEntry sys st i).1.env = st.env := by
  rcases hf : st.fds i with _ | fd
  · simp only [joinEntry, hf]
    split
    · refine ⟨((setnsClose_same ..).1).trans (by simp), ((setnsClose_same ..).2.1).trans (by simp),
        ((setnsClose_same ..).2.2.1).trans (by simp), ((setnsClose_same ..).2.2.2.1).trans (by simp)⟩
    · simp
  · simp only [joinEntry, hf]
    exact ⟨(setnsClose_same ..).1, (setnsClose_same ..).2.1, (setnsClose_same ..).2.2.1,
      (setnsClose_same ..).2.2.2.1⟩

theorem joinEntry_extend (sys : Sys) (st : St) (i : Nat) :
    ∃ E, (joinEntry sys st i).1.events = st.events ++ E := by
  rcases hf : st.fds i with _ | fd
  · simp only [joinEntry, hf]
    split
    · refine ⟨Event.opened st.nextFd i ((st.paths i).getD "") ::
        [Event.setns st.nextFd i (sys.setnsOk st.nextFd (nsType i)), Event.closed st.nextFd], ?_⟩
      rw [setnsClose_events]
      simp
    · exact ⟨[], by simp⟩
  · simp only [joinEntry, hf]
    exact ⟨_, setnsClose_events ..⟩

theorem joinGo_same (sys : Sys) (l : List Nat) (st : St) :
    (joinGo sys l st).1.paths = st.paths ∧ (joinGo sys l st).1.fds = st.fds ∧
    (joinGo sys l st).1.seq = st.seq ∧ (joinGo sys l st).1.env = st.env := by
  induction l generalizing st with
  | nil => simp [joinGo]
  | cons i rest ih =>
      have hdef : joinGo sys (i :: rest) st =
          match joinEntry sys st i with
          | (st1, true) => (st1, true)
          | (st1, false) => joinGo sys rest st1 := rfl
      rcases h : joinEntry sys st i with ⟨st1, ab⟩
      have hsame := joinEntry_same sys st i
      rw [h] at hsame
      cases ab
      · rw [hdef, h]
        exact ⟨(ih st1).1.trans hsame.1, (ih st1).2.1.trans hsame.2.1,
          (ih st1).2.2.1.trans hsame.2.2.1, (ih st1).2.2.2.trans hsame.2.2.2⟩
      · rw [hdef, h]
        exact hsame

theorem joinGo_extend (sys : Sys) (l : List Nat) (st : St) :
    ∃ E, (joinGo sys l st).1.events = st.events ++ E := by
  induction l generalizing st with
  | nil => exact ⟨[], by simp [joinGo]⟩
  | cons i rest ih =>
      have hdef : joinGo sys (i :: rest) st =
          match joinEntry sys st i with
          | (st1, true) => (st1, true)
          | (st1, false) => joinGo sys rest st1 := rfl
      rcases h : joinEntry sys st i with ⟨st1, ab⟩
      have hext := joinEntry_extend sys st i
      rw [h] at hext
      rcases hext with ⟨E1, hE1⟩
      have hE1' : st1.events = st.events ++ E1 := hE1
      cases ab
      · rcases ih st1 with ⟨E2, hE2⟩
        rw [hdef, h]
        exact ⟨E1 ++ E2, by rw [hE2, hE1', List.append_assoc]⟩
      · rw [hdef, h]
        exact ⟨E1, hE1'⟩


theorem joinEntry_scope (sys : Sys) (st : St) (i : Nat) :
    ∀ e ∈ (joinEntry sys st i).1.events,
      e ∈ st.events ∨ (∃ f ok, e = Event.setns f i ok) ∨ (∃ f p, e = Event.opened f i p) ∨
        (∃ f, e = Event.closed f) := by
  intro e he
  rcases hf : st.fds i with _ | fd
  · simp only [joinEntry, hf] at he
    split at he
    · rw [setnsClose_events] at he
      simp at he
      rcases he with he | he | he | he
      · exact Or.inl he
      · exact Or.inr (Or.inr (Or.inl ⟨_, _, he⟩))
      · exact Or.inr (Or.inl ⟨_, _, he⟩)
      · exact Or.inr (Or.inr (Or.inr ⟨_, he⟩))
    · exact Or.inl he
  · simp only [joinEntry, hf] at he
    rw [setnsClose_events] at he
    simp at he
    rcases he with he | he | he
    · exact Or.inl he
    · exact Or.inr (Or.inl ⟨_, _, he⟩)
    · exact Or.inr (Or.inr (Or.inr ⟨_, he⟩))

theorem joinGo_scope (sys : Sys) (l : List Nat) (st : St) :
    ∀ e ∈ (joinGo sys l st).1.events,
      e ∈ st.events ∨ (∃ f i ok, i ∈ l ∧ e = Event.setns f i ok) ∨
        (∃ f i p, i ∈ l ∧ e = Event.opened f i p) ∨ (∃ f, e = Event.closed f) := by
  induction l generalizing st with
  | nil =>
      intro e he
      exact Or.inl he
  | cons i rest ih =>
      intro e he
      have hdef : joinGo sys (i :: rest) st =
          match joinEntry sys st i with
          | (st1, true) => (st1, true)
          | (st1, false) => joinGo sys rest st1 := rfl
      rcases h : joinEntry sys st i with ⟨st1, ab⟩
      rw [hdef, h] at he
      have hscope := joinEntry_scope sys st i
      rw [h] at hscope
      cases ab
      · rcases ih st1 e he with h1 | h1 | h1 | h1
        · rcases hscope e h1 with h2 | h2 | h2 | h2
          · exact Or.inl h2
          · rcases h2 with ⟨f, ok, rfl⟩
            exact Or.inr (Or.inl ⟨f, i, ok, List.mem_cons_self .., rfl⟩)
          · rcases h2 with ⟨f, p, rfl⟩
            exact Or.inr (Or.inr (Or.inl ⟨f, i, p, List.mem_cons_self .., rfl⟩))
          · exact Or.inr (Or.inr (Or.inr h2))
        · rcases h1 with ⟨f, j, ok, hj, rfl⟩
          exact Or.inr (Or.inl ⟨f, j, ok, List.mem_cons_of_mem _ hj, rfl⟩)
        · rcases h1 with ⟨f, j, p, hj, rfl⟩
          exact Or.inr (Or.inr (Or.inl ⟨f, j, p, List.mem_cons_of_mem _ hj, rfl⟩))
        · exact Or.inr (Or.inr (Or.inr h1))
      · rcases hscope e he with h2 | h2 | h2 | h2
        · exact Or.inl h2
        · rcases h2 with ⟨f, ok, rfl⟩
          exact Or.inr (Or.inl ⟨f, i, ok, List.mem_cons_self .., rfl⟩)
        · rcases h2 with ⟨f, p, rfl⟩
          exact Or.inr (Or.inr (Or.inl ⟨f, i, p, List.mem_cons_self .., rfl⟩))
        · exact Or.inr (Or.inr (Or.inr h2))

theorem parseTok_env (sys : Sys) (st : St) (tok : String) :
    (parseTok sys st tok).1.env = st.env := by
  simp only [parseTok, pathCheck]
  repeat' split
  all_goals simp

theorem parseTok_events_opened (sys : Sys) (st : St) (tok : String) :
    ∀ e ∈ (parseTok sys st tok).1.events, e ∈ st.events ∨ ∃ f i p, e = Event.opened f i p := by
  intro e he
  simp only [parseTok, pathCheck] at he
  repeat' split at he
  all_goals simp_all
  all_goals tauto


theorem parseGo_env (sys : Sys) (ts : List String) (st : St) :
    (parseGo sys ts st).1.env = st.env := by
  induction ts generalizing st with
  | nil => rfl
  | cons t rest ih =>
      have hdef : parseGo sys (t :: rest) st =
          if st.seq.length < NSCOUNT then
            match parseTok sys st t with
            | (st1, true) => (st1, true)
            | (st1, false) => parseGo sys rest st1
          else (st, false) := rfl
      rw [hdef]
      split
      · rcases h : parseTok sys st t with ⟨st1, ab⟩
        have he := parseTok_env sys st t
        rw [h] at he
        cases ab
        · exact (ih st1).trans he
        · exact he
      · rfl

theorem parseGo_events_opened (sys : Sys) (ts : List String) (st : St) :
    ∀ e ∈ (parseGo sys ts st).1.events, e ∈ st.events ∨ ∃ f i p, e = Event.opened f i p := by
  induction ts generalizing st with
  | nil => exact fun e he => Or.inl he
  | cons t rest ih =>
      intro e he
      have hdef : parseGo sys (t :: rest) st =
          if st.seq.length < NSCOUNT then
            match parseTok sys st t with
            | (st1, true) => (st1, true)
            | (st1, false) => parseGo sys rest st1
          else (st, false) := rfl
      rw [hdef] at he
      split at he
      · rcases h : parseTok sys st t with ⟨st1, ab⟩
        have hev := parseTok_events_opened sys st t
        rw [h] at hev
        rw [h] at he
        cases ab
        · rcases ih st1 e he with h1 | h1
          · exact hev e h1
          · exact Or.inr h1
        · exact hev e he
      · exact Or.inl he

theorem runGonsFrom_env (sys : Sys) (st0 : St) : (runGonsFrom sys st0).env = st0.env := by
  have hdef : runGonsFrom sys st0 =
      match gonsParse sys st0 with
      | (st1, true) => st1
      | (st1, false) => (joinGo sys st1.seq st1).1 := rfl
  rcases h : gonsParse sys st0 with ⟨st1, ab⟩
  have hp : st1.env = st0.env := by
    have h2 := parseGo_env sys (tokensOf (orderString st0.env)) { st0 with seq := [] }
    have h3 : gonsParse sys st0 =
        parseGo sys (tokensOf (orderString st0.env)) { st0 with seq := [] } := rfl
    rw [h3] at h
    rw [h] at h2
    exact h2
  rw [hdef, h]
  cases ab
  · exact ((joinGo_same sys st1.seq st1).2.2.2).trans hp
  · exact hp

theorem parseTok_unknown (sys : Sys) (st : St) (tok0 : String)
    (h : nsLookup (stripMark tok0).2 = none) :
    parseTok sys st tok0 = ({ st with msg := some (.unknownType (stripMark tok0).2) }, true) := by
  simp only [parseTok, h]

theorem parseTok_skip_unset (sys : Sys) (st : St) (tok0 : String) (i : Nat)
    (hl : nsLookup (stripMark tok0).2 = some i)
    (he : st.env (nsEnvvar i) = none ∨ st.env (nsEnvvar i) = some "") :
    parseTok sys st tok0 = (st, false) := by
  rcases he with he | he <;> simp [parseTok, hl, he]

theorem parseTok_dup_lateopen (sys : Sys) (st : St) (tok0 tok : String) (i : Nat) (p q : String)
    (hm : stripMark tok0 = (false, tok)) (hl : nsLookup tok = some i)
    (he : st.env (nsEnvvar i) = some p) (hp : p ≠ "") (hq : st.paths i = some q) :
    parseTok sys st tok0 = ({ st with msg := some (.duplicateType tok) }, true) := by
  simp only [parseTok, pathCheck, hm, hl, he, hq]
  simp [hp]

theorem parseTok_dup_preopen_fdset (sys : Sys) (st : St) (tok0 tok : String) (i f : Nat) (p : String)
    (hm : stripMark tok0 = (true, tok)) (hl : nsLookup tok = some i)
    (he : st.env (nsEnvvar i) = some p) (hp : p ≠ "") (hf : st.fds i = some f) :
    parseTok sys st tok0 = ({ st with msg := some (.duplicateType tok) }, true) := by
  simp only [parseTok, pathCheck, hm, hl, he, hf]
  simp [hp]

theorem parseTok_dup_preopen_open_then_fail (sys : Sys) (st : St) (tok0 tok : String) (i : Nat)
    (p q : String)
    (hm : stripMark tok0 = (true, tok)) (hl : nsLookup tok = some i)
    (he : st.env (nsEnvvar i) = some p) (hp : p ≠ "") (hf : st.fds i = none)
    (ho : sys.openOk p = true) (hq : st.paths i = some q) :
    parseTok sys st tok0 =
      ({ st with
          fds := upd st.fds i (some st.nextFd),
          nextFd := st.nextFd + 1,
          events := st.events ++ [.opened st.nextFd i p],
          msg := some (.duplicateType tok) }, true) := by
  simp only [parseTok, pathCheck, hm, hl, he, hf, ho, hq]
  simp [hp]

theorem parseTok_preopen_openfail (sys : Sys) (st : St) (tok0 tok : String) (i : Nat) (p : String)
    (hm : stripMark tok0 = (true, tok)) (hl : nsLookup tok = some i)
    (he : st.env (nsEnvvar i) = some p) (hp : p ≠ "") (hf : st.fds i = none)
    (ho : sys.openOk p = false) :
    parseTok sys st tok0 = ({ st with msg := some (.invalidRef (nsEnvvar i) p) }, true) := by
  simp only [parseTok, pathCheck, hm, hl, he, hf, ho]
  simp [hp]


theorem parseTok_avoid (sys : Sys) (st : St) (tok0 : String) (i : Nat)
    (henv : st.env (nsEnvvar i) = none ∨ st.env (nsEnvvar i) = some "")
    (h1 : i ∉ st.seq) (h2 : st.paths i = none) (h3 : st.fds i = none)
    (h4 : ∀ f p, Event.opened f i p ∉ st.events) :
    i ∉ (parseTok sys st tok0).1.seq ∧ (parseTok sys st tok0).1.paths i = none ∧
    (parseTok sys st tok0).1.fds i = none ∧
    (∀ f p, Event.opened f i p ∉ (parseTok sys st tok0).1.events) := by
  rcases hl : nsLookup (stripMark tok0).2 with _ | j
  · rw [parseTok_unknown sys st tok0 hl]
    exact ⟨h1, h2, h3, h4⟩
  · by_cases hij : j = i
    · subst hij
      rw [parseTok_skip_unset sys st tok0 j hl henv]
      exact ⟨h1, h2, h3, h4⟩
    · rcases he : st.env (nsEnvvar j) with _ | p
      · rw [parseTok_skip_unset sys st tok0 j hl (Or.inl he)]
        exact ⟨h1, h2, h3, h4⟩
      · by_cases hp : p = ""
        · subst hp
          rw [parseTok_skip_unset sys st tok0 j hl (Or.inr he)]
          exact ⟨h1, h2, h3, h4⟩
        · simp only [parseTok, pathCheck, hl, he]
          repeat' split
          all_goals refine ⟨?_, ?_, ?_, ?_⟩
          all_goals simp_all [upd]
          all_goals (intros; omega)


theorem parseGo_avoid (sys : Sys) (ts : List String) (st : St) (i : Nat)
    (henv : st.env (nsEnvvar i) = none ∨ st.env (nsEnvvar i) = some "")
    (h1 : i ∉ st.seq) (h2 : st.paths i = none) (h3 : st.fds i = none)
    (h4 : ∀ f p, Event.opened f i p ∉ st.events) :
    i ∉ (parseGo sys ts st).1.seq ∧ (parseGo sys ts st).1.paths i = none ∧
    (parseGo sys ts st).1.fds i = none ∧
    (∀ f p, Event.opened f i p ∉ (parseGo sys ts st).1.events) := by
  induction ts generalizing st with
  | nil => exact ⟨h1, h2, h3, h4⟩
  | cons t rest ih =>
      have hdef : parseGo sys (t :: rest) st =
          if st.seq.length < NSCOUNT then
            match parseTok sys st t with
            | (st1, true) => (st1, true)
            | (st1, false) => parseGo sys rest st1
          else (st, false) := rfl
      rw [hdef]
      split
      · rcases h : parseTok sys st t with ⟨st1, ab⟩
        have hav := parseTok_avoid sys st t i henv h1 h2 h3 h4
        rw [h] at hav
        have hev := parseTok_env sys st t
        rw [h] at hev
        have henv1 : st1.env (nsEnvvar i) = none ∨ st1.env (nsEnvvar i) = some "" := by
          have hev' : st1.env = st.env := hev
          rw [hev']
          exact henv
        cases ab
        · exact ih st1 henv1 hav.1 hav.2.1 hav.2.2.1 hav.2.2.2
        · exact hav
      · exact ⟨h1, h2, h3, h4⟩

theorem joinGo_avoid (sys : Sys) (l : List Nat) (st : St) (i : Nat) (hil : i ∉ l)
    (h4 : ∀ f p, Event.opened f i p ∉ st.events)
    (h5 : ∀ f ok, Event.setns f i ok ∉ st.events) :
    (∀ f p, Event.opened f i p ∉ (joinGo sys l st).1.events) ∧
    (∀ f ok, Event.setns f i ok ∉ (joinGo sys l st).1.events) := by
  constructor
  · intro f p hmem
    rcases joinGo_scope sys l st _ hmem with h | h | h | h
    · exact h4 f p h
    · rcases h with ⟨f', j, ok, hj, heq⟩
      exact absurd heq (by simp)
    · rcases h with ⟨f', j, p', hj, heq⟩
      rcases heq with ⟨rfl, rfl, rfl⟩
      exact hil hj
    · rcases h with ⟨f', heq⟩
      exact absurd heq (by simp)
  · intro f ok hmem
    rcases joinGo_scope sys l st _ hmem with h | h | h | h
    · exact h5 f ok h
    · rcases h with ⟨f', j, ok', hj, heq⟩
      rcases heq with ⟨rfl, rfl, rfl⟩
      exact hil hj
    · rcases h with ⟨f', j, p', hj, heq⟩
      exact absurd heq (by simp)
    · rcases h with ⟨f', heq⟩
      exact absurd heq (by simp)

/-- C3: for every order specification and every namespace table row,
if the row's environment variable is unset or empty, the row never
appears in the computed join sequence, no `setns` is ever issued for
it, and no reference is ever opened for it. -/
theorem c3_unset_env_type_not_joined (sys : Sys) (env : GEnv) (i : Nat)
    (henv : env (nsEnvvar i) = none ∨ env (nsEnvvar i) = some "") :
    i ∉ (runGons sys env).seq ∧
    (∀ f ok, Event.setns f i ok ∉ (runGons sys env).events) ∧
    (∀ f p, Event.opened f i p ∉ (runGons sys env).events) := by
  rcases hparse : gonsParse sys (initSt env) with ⟨st1, ab⟩
  have hparse' : parseGo sys (tokensOf (orderString (initSt env).env)) (initSt env) = (st1, ab) :=
    hparse
  have hav := parseGo_avoid sys (tokensOf (orderString (initSt env).env)) (initSt env) i henv
    (by simp [initSt]) rfl rfl (by simp [initSt])
  rw [hparse'] at hav
  have hop := parseGo_events_opened sys (tokensOf (orderString (initSt env).env)) (initSt env)
  rw [hparse'] at hop
  have hset1 : ∀ f ok, Event.setns f i ok ∉ st1.events := by
    intro f ok hmem
    rcases hop _ hmem with h | ⟨f', i', p', heq⟩
    · simp [initSt] at h
    · exact absurd heq (by simp)
  have hrdef : runGons sys env =
      match gonsParse sys (initSt env) with
      | (stp, true) => stp
      | (stp, false) => (joinGo sys stp.seq stp).1 := rfl
  rw [hrdef, hparse]
  cases ab
  · have hja := joinGo_avoid sys st1.seq st1 i hav.1 hav.2.2.2 hset1
    exact ⟨by rw [(joinGo_same sys st1.seq st1).2.2.1]; exact hav.1, hja.2, hja.1⟩
  · exact ⟨hav.1, hset1, hav.2.2.2⟩


/-- The unknown-type message text contains the offending token. -/
theorem mention_unknownType (t : String) :
    t.data <:+: (renderMsg (.unknownType t)).data := by
  refine ⟨"package gons: unknown namespace type \x22".data, "\x22 in gons_order".data, ?_⟩
  show _ = (("package gons: unknown namespace type \x22" ++ t) ++ "\x22 in gons_order").data
  simp [String.data_append]

/-- The cannot-join message text contains the symbolic namespace name
(as the suffix of the variable name `gons_<name>`) and the path. -/
theorem mention_cannotJoin (i : Nat) (p : String) (hi : i < NSCOUNT) :
    (nsSymbol i).data <:+: (renderMsg (.cannotJoin (nsEnvvar i) p)).data ∧
    p.data <:+: (renderMsg (.cannotJoin (nsEnvvar i) p)).data := by
  constructor
  · have hsplit : (nsEnvvar i).data = "gons_".data ++ (nsSymbol i).data := by
      have h7 : NSCOUNT = 7 := rfl
      rw [h7] at hi
      interval_cases i <;> decide
    refine ⟨"package gons: cannot join gons_".data, (" using reference \x22" ++ p ++ "\x22: ").data, ?_⟩
    show _ = ((("package gons: cannot join " ++ nsEnvvar i) ++ " using reference \x22") ++ p ++ "\x22: ").data
    simp [String.data_append, hsplit]
  · refine ⟨(("package gons: cannot join " ++ nsEnvvar i) ++ " using reference \x22").data,
      "\x22: ".data, ?_⟩
    show _ = ((("package gons: cannot join " ++ nsEnvvar i) ++ " using reference \x22") ++ p ++ "\x22: ").data
    simp [String.data_append]


/-- C4 counterexample: the order specification
`user,mnt,cgroup,ipc,net,pid,uts,nsfoo` contains the unknown token
`nsfoo`, yet the scan does not fail (the `seqlen < NSCOUNT` loop guard
stops scanning after seven appended entries), no error is recorded, and
the join phase runs (a `setns` call is issued). -/
theorem c4_counterexample :
    (gonsParse sysAll (initSt envSevenThenBad)).2 = false ∧
    (runGons sysAll envSevenThenBad).msg = none ∧
    Event.setns 0 5 true ∈ (runGons sysAll envSevenThenBad).events := by decide

/-- C4 (amended): a token whose stripped form is not one of the seven
namespace names makes the scan fail at once with a message mentioning
the token — provided the token is reached, i.e. scanned before seven
entries have been appended (first conjunct is the scan step itself, for
any state, hence for any reached occurrence); when the scan aborts, the
invocation ends there and no namespace join is ever attempted. -/
theorem c4_amended (sys : Sys) (st : St) (tok0 : String) (env : GEnv)
    (hu : nsLookup (stripMark tok0).2 = none)
    (hab : (gonsParse sys (initSt env)).2 = true) :
    parseTok sys st tok0 = ({ st with msg := some (.unknownType (stripMark tok0).2) }, true)
    ∧ ((stripMark tok0).2).data <:+: (renderMsg (.unknownType (stripMark tok0).2)).data
    ∧ runGons sys env = (gonsParse sys (initSt env)).1
    ∧ (∀ f i ok, Event.setns f i ok ∉ (runGons sys env).events) := by
  have hdef : runGons sys env =
      (match gonsParse sys (initSt env) with
      | (st1, true) => st1
      | (st1, false) => (joinGo sys st1.seq st1).1) := rfl
  rcases hpp : gonsParse sys (initSt env) with ⟨st1, ab⟩
  rw [hpp] at hab
  have hab' : ab = true := hab
  subst hab'
  have hrun : runGons sys env = st1 := by rw [hdef, hpp]
  have hpp' : parseGo sys (tokensOf (orderString (initSt env).env)) { initSt env with seq := [] }
      = (st1, true) := hpp
  have hop := parseGo_events_opened sys (tokensOf (orderString (initSt env).env))
    { initSt env with seq := [] }
  rw [hpp'] at hop
  refine ⟨parseTok_unknown sys st tok0 hu, mention_unknownType _, hrun, ?_⟩
  intro f i ok hmem
  rw [hrun] at hmem
  rcases hop _ hmem with h | ⟨f', i', p', heq⟩
  · simp [initSt] at h
  · exact absurd heq (by simp)

/-- C5 counterexample: the order `net,net` lists the same valid type
twice, but with `gons_net` unset the scan does not fail at all — both
occurrences are silently skipped, refuting the claim as stated. -/
theorem c5_counterexample :
    (gonsParse sysAll (initSt envDupUnset)).2 = false ∧
    (runGons sysAll envDupUnset).msg = none ∧
    (runGons sysAll envDupUnset).seq = [] := by decide

/-- C5 (amended): when the scan processes an occurrence of a valid type
for which a path is already recorded and whose environment variable is
set non-empty, it fails while processing that occurrence: a late-open
occurrence, or a pre-open occurrence whose descriptor slot is filled,
fails with the duplicate-entry error; a pre-open occurrence with an
empty descriptor slot consults the environment variable and opens the
reference first — recording the new descriptor — and only then fails
the duplicate path check (or fails with the invalid-reference error
when that open fails).  The environment variable is consulted before
the duplicate checks, not after. -/
theorem c5_amended (sys : Sys) (st : St) (tok : String) (i : Nat) (p q : String)
    (hl : nsLookup tok = some i)
    (he : st.env (nsEnvvar i) = some p) (hp : p ≠ "") (hq : st.paths i = some q) :
    (∀ tok0, stripMark tok0 = (false, tok) →
        parseTok sys st tok0 = ({ st with msg := some (.duplicateType tok) }, true))
  ∧ (∀ tok0 f, stripMark tok0 = (true, tok) → st.fds i = some f →
        parseTok sys st tok0 = ({ st with msg := some (.duplicateType tok) }, true))
  ∧ (∀ tok0, stripMark tok0 = (true, tok) → st.fds i = none → sys.openOk p = true →
        parseTok sys st tok0 =
          ({ st with
              fds := upd st.fds i (some st.nextFd),
              nextFd := st.nextFd + 1,
              events := st.events ++ [.opened st.nextFd i p],
              msg := some (.duplicateType tok) }, true))
  ∧ (∀ tok0, stripMark tok0 = (true, tok) → st.fds i = none → sys.openOk p = false →
        parseTok sys st tok0 = ({ st with msg := some (.invalidRef (nsEnvvar i) p) }, true)) :=
  ⟨fun tok0 hm => parseTok_dup_lateopen sys st tok0 tok i p q hm hl he hp hq,
   fun tok0 f hm hf => parseTok_dup_preopen_fdset sys st tok0 tok i f p hm hl he hp hf,
   fun tok0 hm hf ho => parseTok_dup_preopen_open_then_fail sys st tok0 tok i p q hm hl he hp hf ho hq,
   fun tok0 hm hf ho => parseTok_preopen_openfail sys st tok0 tok i p hm hl he hp hf ho⟩

/-- C5 witness: both duplicate shapes at a concrete state. -/
theorem c5_amended_witness :
    parseTok sysAll stDupWit "net" = ({ stDupWit with msg := some (.duplicateType "net") }, true) ∧
    parseTok sysAll stDupWit "!net" =
      ({ stDupWit with
          fds := upd stDupWit.fds 3 (some stDupWit.nextFd),
          nextFd := stDupWit.nextFd + 1,
          events := stDupWit.events ++ [.opened stDupWit.nextFd 3 "/net"],
          msg := some (.duplicateType "net") }, true) :=
  ⟨(c5_amended sysAll stDupWit "net" 3 "/net" "/net" (by decide) (by decide) (by decide)
      (by simp [stDupWit, upd])).1 "net" (by decide),
   (c5_amended sysAll stDupWit "net" 3 "/net" "/net" (by decide) (by decide) (by decide)
      (by simp [stDupWit, upd])).2.2.1 "!net" (by decide) (by decide) rfl⟩

/-- C7 counterexample: after one successful invocation the resolved
path of `user` is still recorded in the static registry, and a second
invocation in the same process spuriously fails with a duplicate-entry
error triggered by the leftover descriptor field. -/
theorem c7_counterexample :
    (runGons sysAll envAll).msg = none ∧
    (runGons sysAll envAll).paths 5 = some "/user" ∧
    (runGonsFrom sysAll (runGons sysAll envAll)).msg = some (.duplicateType "user") := by decide

/-- C7 (amended): the order sequence is per-invocation, but the
resolved paths and descriptor numbers recorded in the static
`namespaces[]` registry are NOT discarded when the invocation ends: the
final state carries exactly the registry fields the scan recorded (the
join phase never clears them), so they persist into any subsequent
invocation; only the status buffer was supposed to persist. -/
theorem c7_amended (sys : Sys) (st0 : St) :
    (runGonsFrom sys st0).paths = (gonsParse sys st0).1.paths ∧
    (runGonsFrom sys st0).fds = (gonsParse sys st0).1.fds := by
  have hdef : runGonsFrom sys st0 =
      (match gonsParse sys st0 with
      | (st1, true) => st1
      | (st1, false) => (joinGo sys st1.seq st1).1) := rfl
  rcases h : gonsParse sys st0 with ⟨st1, ab⟩
  rw [hdef, h]
  cases ab
  · exact ⟨(joinGo_same sys st1.seq st1).1, (joinGo_same sys st1.seq st1).2.1⟩
  · exact ⟨rfl, rfl⟩

theorem logerr_fallback_frozen (st : LogSt) (a : Bool) (m : LogMsg)
    (h1 : st.gonsmsg = some .fallback) (h2 : st.maxmsgsize = 0) :
    logerr st a m = st := by
  simp [logerr, h1, h2]

theorem logFold_fallback_frozen (calls : List (Bool × LogMsg)) (st : LogSt)
    (h1 : st.gonsmsg = some .fallback) (h2 : st.maxmsgsize = 0) :
    logFold st calls = st := by
  induction calls with
  | nil => rfl
  | cons c rest ih =>
      show logFold (logerr st c.1 c.2) rest = st
      rw [logerr_fallback_frozen st c.1 c.2 h1 h2, ih]

theorem logFold_allocs_le (calls : List (Bool × LogMsg)) (st : LogSt)
    (h : (st.gonsmsg = none ∧ st.allocs = 0) ∨ (st.gonsmsg ≠ none ∧ st.allocs ≤ 1)) :
    (logFold st calls).allocs ≤ 1 := by
  induction calls generalizing st with
  | nil =>
      rcases h with ⟨_, h0⟩ | ⟨_, h1⟩
      · simp [logFold, h0]
      · exact h1
  | cons c rest ih =>
      show (logFold (logerr st c.1 c.2) rest).allocs ≤ 1
      apply ih
      rcases h with ⟨hn, h0⟩ | ⟨hs, h1⟩
      · right
        cases hc : c.1 <;> simp [logerr, hn, hc, h0]
      · right
        rcases hg : st.gonsmsg with _ | b
        · exact absurd hg hs
        · by_cases hm : st.maxmsgsize = 0 <;> simp [logerr, hg, hm, h1]

/-- C8: the status buffer is allocated lazily — no allocation before
the first recorded error, at most one `malloc` call per process over
any sequence of `logerr` calls; if the first allocation fails, the
static fallback message is installed (with `maxmsgsize = 0`) and no
later error recording changes that state, so the accessor always
returns the fallback text. -/
theorem c8_status_lifecycle (calls rest : List (Bool × LogMsg)) (m : LogMsg) :
    (logFold initLogSt []).allocs = 0
  ∧ (logFold initLogSt calls).allocs ≤ 1
  ∧ logFold initLogSt ((false, m) :: rest) =
      { gonsmsg := some .fallback, maxmsgsize := 0, allocs := 1 }
  ∧ gonsStatus (logFold initLogSt ((false, m) :: rest)) = "malloc error" := by
  have hstep : logerr initLogSt false m =
      { gonsmsg := some .fallback, maxmsgsize := 0, allocs := 1 } := by
    simp [logerr, initLogSt]
  have hff : logFold initLogSt ((false, m) :: rest) =
      { gonsmsg := some .fallback, maxmsgsize := 0, allocs := 1 } := by
    show logFold (logerr initLogSt false m) rest = _
    rw [hstep, logFold_fallback_frozen rest _ rfl rfl]
  refine ⟨rfl, logFold_allocs_le calls initLogSt (Or.inl ⟨rfl, rfl⟩), hff, ?_⟩
  rw [hff]
  rfl

/-- C10: an invocation of `gonamespaces()` never mutates the process
environment: the environment map threaded through the run is unchanged,
every variable included (the scan tokenizes a `strdup` copy of the
order string, line 129, and only reads `getenv` results). -/
theorem c10_environment_unchanged (sys : Sys) (env : GEnv) :
    (runGons sys env).env = env ∧ ∀ v, (runGons sys env).env v = env v := by
  have h : (runGons sys env).env = env := runGonsFrom_env sys (initSt env)
  exact ⟨h, fun v => by rw [h]⟩

/-- C3 witness: concrete instance with `gons_net` unset. -/
theorem c3_unset_env_type_not_joined_witness :
    3 ∉ (runGons sysAll envDupUnset).seq ∧
    Event.setns 0 3 true ∉ (runGons sysAll envDupUnset).events ∧
    Event.opened 0 3 "/net" ∉ (runGons sysAll envDupUnset).events :=
  ⟨(c3_unset_env_type_not_joined sysAll envDupUnset 3 (Or.inl (by decide))).1,
   (c3_unset_env_type_not_joined sysAll envDupUnset 3 (Or.inl (by decide))).2.1 0 true,
   (c3_unset_env_type_not_joined sysAll envDupUnset 3 (Or.inl (by decide))).2.2 0 "/net"⟩

/-- C4 witness for the amended statement: unknown token `nsfoo` as the
whole order specification. -/
theorem c4_amended_witness :
    parseTok sysAll (initSt envBadTok) "nsfoo" =
      ({ initSt envBadTok with msg := some (.unknownType "nsfoo") }, true) ∧
    runGons sysAll envBadTok = (gonsParse sysAll (initSt envBadTok)).1 ∧
    Event.setns 0 3 true ∉ (runGons sysAll envBadTok).events :=
  ⟨(c4_amended sysAll (initSt envBadTok) "nsfoo" envBadTok (by decide) (by decide)).1,
   (c4_amended sysAll (initSt envBadTok) "nsfoo" envBadTok (by decide) (by decide)).2.2.1,
   (c4_amended sysAll (initSt envBadTok) "nsfoo" envBadTok (by decide) (by decide)).2.2.2 0 3 true⟩


theorem getD_mem_of_lt {l : List Nat} {n : Nat} (d : Nat) (h : n < l.length) :
    l.getD n d ∈ l := by
  rw [List.getD_eq_getElem l d h]
  exact List.getElem_mem h

/-- Case analysis of one switch-loop iteration: either the entry joins
successfully (using its pre-opened descriptor, or one opened now from
the recorded path — the fresh counter value), or the `setns` fails
(descriptor closed either way, message recorded), or the late open
fails (no event, message recorded). -/
theorem joinEntry_char (sys : Sys) (st : St) (i : Nat) :
    (∃ fd, ((st.fds i = some fd ∧ (joinEntry sys st i).1.nextFd = st.nextFd ∧
              (joinEntry sys st i).1.events =
                st.events ++ [Event.setns fd i true, Event.closed fd]) ∨
            (st.fds i = none ∧ fd = st.nextFd ∧ (joinEntry sys st i).1.nextFd = st.nextFd + 1 ∧
              (joinEntry sys st i).1.events =
                st.events ++ [Event.opened fd i ((st.paths i).getD ""),
                  Event.setns fd i true, Event.closed fd]))
       ∧ (joinEntry sys st i).2 = false ∧ (joinEntry sys st i).1.msg = st.msg)
  ∨ (∃ fd, ((st.fds i = some fd ∧ (joinEntry sys st i).1.nextFd = st.nextFd ∧
              (joinEntry sys st i).1.events =
                st.events ++ [Event.setns fd i false, Event.closed fd]) ∨
            (st.fds i = none ∧ fd = st.nextFd ∧ (joinEntry sys st i).1.nextFd = st.nextFd + 1 ∧
              (joinEntry sys st i).1.events =
                st.events ++ [Event.opened fd i ((st.paths i).getD ""),
                  Event.setns fd i false, Event.closed fd]))
       ∧ (joinEntry sys st i).2 = true
       ∧ (joinEntry sys st i).1.msg = some (.cannotJoin (nsEnvvar i) ((st.paths i).getD "")))
  ∨ ((joinEntry sys st i).1.events = st.events ∧ (joinEntry sys st i).1.nextFd = st.nextFd
       ∧ (joinEntry sys st i).2 = true
       ∧ (joinEntry sys st i).1.msg = some (.invalidRef (nsEnvvar i) ((st.paths i).getD ""))) := by
  rcases hf : st.fds i with _ | fd
  · by_cases ho : sys.openOk ((st.paths i).getD "") = true
    · by_cases hs : sys.setnsOk st.nextFd (nsType i) = true
      · refine Or.inl ⟨st.nextFd, Or.inr ⟨rfl, rfl, ?_, ?_⟩, ?_, ?_⟩ <;>
          simp [joinEntry, setnsClose, hf, ho, hs]
      · refine Or.inr (Or.inl ⟨st.nextFd, Or.inr ⟨rfl, rfl, ?_, ?_⟩, ?_, ?_⟩) <;>
          simp [joinEntry, setnsClose, hf, ho, hs]
    · refine Or.inr (Or.inr ⟨?_, ?_, ?_, ?_⟩) <;>
        simp [joinEntry, hf, ho]
  · by_cases hs : sys.setnsOk fd (nsType i) = true
    · refine Or.inl ⟨fd, Or.inl ⟨rfl, ?_, ?_⟩, ?_, ?_⟩ <;>
        simp [joinEntry, setnsClose, hf, hs]
    · refine Or.inr (Or.inl ⟨fd, Or.inl ⟨rfl, ?_, ?_⟩, ?_, ?_⟩) <;>
        simp [joinEntry, setnsClose, hf, hs]

/-- First-failure shape of the switch loop: if a failing `setns` event
exists for the entry at position `k`, all earlier entries carry a
successful `setns`, later entries get neither a `setns` nor a new
`opened` event, and the recorded message names the failing entry's
variable and recorded path. -/
theorem joinGo_first_failure (sys : Sys) (l : List Nat) :
    ∀ (st : St),
    l.Nodup →
    (∀ i ∈ l, ∀ f ok, Event.setns f i ok ∉ st.events) →
    (∀ i ∈ l, st.paths i ≠ none) →
    ∀ k, k < l.length →
    (∃ f, Event.setns f (l.getD k 0) false ∈ (joinGo sys l st).1.events) →
    ((∀ j, j < k → ∃ f, Event.setns f (l.getD j 0) true ∈ (joinGo sys l st).1.events)
    ∧ (∀ j, k < j → j < l.length →
        (∀ f ok, Event.setns f (l.getD j 0) ok ∉ (joinGo sys l st).1.events)
      ∧ (∀ f p, Event.opened f (l.getD j 0) p ∈ (joinGo sys l st).1.events →
            Event.opened f (l.getD j 0) p ∈ st.events))
    ∧ (∃ p, st.paths (l.getD k 0) = some p ∧
        (joinGo sys l st).1.msg = some (.cannotJoin (nsEnvvar (l.getD k 0)) p))) := by
  induction l with
  | nil =>
      intro st _ _ _ k hk hfail
      exact absurd hk (by simp)
  | cons i rest ih =>
      intro st hnd hns hpaths k hk hfail
      have hdef : joinGo sys (i :: rest) st =
          match joinEntry sys st i with
          | (st1, true) => (st1, true)
          | (st1, false) => joinGo sys rest st1 := rfl
      have hnd' := List.nodup_cons.mp hnd
      rcases hje : joinEntry sys st i with ⟨st1, ab⟩
      have hchar := joinEntry_char sys st i
      rw [hje] at hchar
      have hsame := joinEntry_same sys st i
      rw [hje] at hsame
      have hpaths1 : st1.paths = st.paths := hsame.1
      rcases hchar with ⟨fd, hev, hab, hmsg⟩ | ⟨fd, hev, hab, hmsg⟩ | ⟨hev, hnf, hab, hmsg⟩
      · -- success on entry i; continue with rest
        have hab' : ab = false := hab
        subst hab'
        have hev' : st1.events = st.events ++ [Event.setns fd i true, Event.closed fd] ∨
            st1.events = st.events ++ [Event.opened fd i ((st.paths i).getD ""),
              Event.setns fd i true, Event.closed fd] := by
          rcases hev with ⟨_, _, h⟩ | ⟨_, _, _, h⟩
          · exact Or.inl h
          · exact Or.inr h
        have hJ : joinGo sys (i :: rest) st = joinGo sys rest st1 := by
          rw [hdef, hje]
        rw [hJ] at hfail ⊢
        have hstm : ∀ f' i' ok', Event.setns f' i' ok' ∈ st1.events →
            Event.setns f' i' ok' ∈ st.events ∨ (i' = i ∧ ok' = true ∧ f' = fd) := by
          intro f' i' ok' hmem
          rcases hev' with hev1 | hev1 <;> rw [hev1] at hmem <;> simp at hmem <;>
            rcases hmem with hmem | hmem
          · exact Or.inl hmem
          · exact Or.inr ⟨hmem.2.1, hmem.2.2, hmem.1⟩
          · exact Or.inl hmem
          · exact Or.inr ⟨hmem.2.1, hmem.2.2, hmem.1⟩
        have hopm : ∀ f' i' p', Event.opened f' i' p' ∈ st1.events →
            Event.opened f' i' p' ∈ st.events ∨ i' = i := by
          intro f' i' p' hmem
          rcases hev' with hev1 | hev1 <;> rw [hev1] at hmem <;> simp at hmem
          · exact Or.inl hmem
          · rcases hmem with hmem | hmem
            · exact Or.inl hmem
            · exact Or.inr hmem.2.1
        have hns1 : ∀ i' ∈ rest, ∀ f ok, Event.setns f i' ok ∉ st1.events := by
          intro i' hi' f ok hmem
          rcases hstm f i' ok hmem with h | ⟨rfl, _, _⟩
          · exact hns i' (List.mem_cons_of_mem _ hi') f ok h
          · exact hnd'.1 hi'
        have hpaths1' : ∀ i' ∈ rest, st1.paths i' ≠ none := by
          intro i' hi'
          rw [hpaths1]
          exact hpaths i' (List.mem_cons_of_mem _ hi')
        rcases k with _ | j
        · -- k = 0 impossible: entry i cannot carry a failing setns
          exfalso
          rcases hfail with ⟨f, hmem⟩
          simp only [List.getD_cons_zero] at hmem
          rcases joinGo_scope sys rest st1 _ hmem with h | h | h | h
          · rcases hstm f i false h with h2 | ⟨_, h2, _⟩
            · exact hns i (List.mem_cons_self ..) f false h2
            · exact Bool.false_ne_true h2
          · rcases h with ⟨f', j', ok', hj', heq⟩
            rcases heq with ⟨rfl, rfl, rfl⟩
            exact hnd'.1 hj'
          · rcases h with ⟨f', j', p', hj', heq⟩
            exact absurd heq (by simp)
          · rcases h with ⟨f', heq⟩
            exact absurd heq (by simp)
        · -- k = j + 1: recurse
          have hj : j < rest.length := by
            simpa using hk
          simp only [List.getD_cons_succ] at hfail
          rcases ih st1 hnd'.2 hns1 hpaths1' j hj hfail with ⟨A, B, C⟩
          refine ⟨?_, ?_, ?_⟩
          · intro j' hj'
            rcases j' with _ | j''
            · refine ⟨fd, ?_⟩
              simp only [List.getD_cons_zero]
              rcases joinGo_extend sys rest st1 with ⟨E, hE⟩
              rw [hE]
              apply List.mem_append_left
              rcases hev' with hev1 | hev1 <;> rw [hev1] <;> simp
            · simp only [List.getD_cons_succ]
              exact A j'' (by omega)
          · intro j' hj1 hj2
            rcases j' with _ | j''
            · exact absurd hj1 (by omega)
            · simp only [List.getD_cons_succ]
              have hB := B j'' (by omega) (by simpa using hj2)
              refine ⟨hB.1, ?_⟩
              intro f p hmem
              have hmem1 := hB.2 f p hmem
              rcases hopm f (rest.getD j'' 0) p hmem1 with h | h
              · exact h
              · exfalso
                have : rest.getD j'' 0 ∈ rest := getD_mem_of_lt 0 (by simpa using hj2)
                rw [h] at this
                exact hnd'.1 this
          · simp only [List.getD_cons_succ]
            rcases C with ⟨p, hp, hm⟩
            rw [hpaths1] at hp
            exact ⟨p, hp, hm⟩
      · -- entry i fails its setns: the run stops here
        have hab' : ab = true := hab
        subst hab'
        have hev' : st1.events = st.events ++ [Event.setns fd i false, Event.closed fd] ∨
            st1.events = st.events ++ [Event.opened fd i ((st.paths i).getD ""),
              Event.setns fd i false, Event.closed fd] := by
          rcases hev with ⟨_, _, h⟩ | ⟨_, _, _, h⟩
          · exact Or.inl h
          · exact Or.inr h
        have hJ : joinGo sys (i :: rest) st = (st1, true) := by
          rw [hdef, hje]
        rw [hJ] at hfail ⊢
        have hstm : ∀ f' i' ok', Event.setns f' i' ok' ∈ st1.events →
            Event.setns f' i' ok' ∈ st.events ∨ (i' = i ∧ ok' = false ∧ f' = fd) := by
          intro f' i' ok' hmem
          rcases hev' with hev1 | hev1 <;> rw [hev1] at hmem <;> simp at hmem <;>
            rcases hmem with hmem | hmem
          · exact Or.inl hmem
          · exact Or.inr ⟨hmem.2.1, hmem.2.2, hmem.1⟩
          · exact Or.inl hmem
          · exact Or.inr ⟨hmem.2.1, hmem.2.2, hmem.1⟩
        have hopm : ∀ f' i' p', Event.opened f' i' p' ∈ st1.events →
            Event.opened f' i' p' ∈ st.events ∨ i' = i := by
          intro f' i' p' hmem
          rcases hev' with hev1 | hev1 <;> rw [hev1] at hmem <;> simp at hmem
          · exact Or.inl hmem
          · rcases hmem with hmem | hmem
            · exact Or.inl hmem
            · exact Or.inr hmem.2.1
        rcases k with _ | j
        · simp only [List.getD_cons_zero] at hfail ⊢
          refine ⟨fun j hj => absurd hj (by omega), ?_, ?_⟩
          · intro j' hj1 hj2
            rcases j' with _ | j''
            · exact absurd hj1 (by omega)
            · simp only [List.getD_cons_succ]
              have hmem : rest.getD j'' 0 ∈ rest := getD_mem_of_lt 0 (by simpa using hj2)
              have hne : rest.getD j'' 0 ≠ i := fun h => hnd'.1 (h ▸ hmem)
              constructor
              · intro f ok hmem2
                rcases hstm f _ ok hmem2 with h | ⟨h, _, _⟩
                · exact hns _ (List.mem_cons_of_mem _ hmem) f ok h
                · exact hne h
              · intro f p hmem2
                rcases hopm f _ p hmem2 with h | h
                · exact h
                · exact absurd h hne
          · have hpne := hpaths i (List.mem_cons_self ..)
            rcases hp : st.paths i with _ | p
            · exact absurd hp hpne
            · refine ⟨p, rfl, ?_⟩
              have hmsg' : st1.msg = some (.cannotJoin (nsEnvvar i) ((st.paths i).getD "")) := hmsg
              rw [hp] at hmsg'
              exact hmsg'
        · -- failing event for a later entry cannot exist
          exfalso
          simp only [List.getD_cons_succ] at hfail
          rcases hfail with ⟨f, hmem⟩
          have hj : j < rest.length := by simpa using hk
          have hmemr : rest.getD j 0 ∈ rest := getD_mem_of_lt 0 hj
          rcases hstm f _ false hmem with h | ⟨h, _, _⟩
          · exact hns _ (List.mem_cons_of_mem _ hmemr) f false h
          · exact hnd'.1 (h ▸ hmemr)
      · -- entry i fails its open: no setns event at all
        exfalso
        have hab' : ab = true := hab
        subst hab'
        have hJ : joinGo sys (i :: rest) st = (st1, true) := by
          rw [hdef, hje]
        rw [hJ] at hfail
        rcases hfail with ⟨f, hmem⟩
        have hev' : st1.events = st.events := hev
        rw [hev'] at hmem
        have hmemc : (i :: rest).getD k 0 ∈ i :: rest := getD_mem_of_lt 0 hk
        exact hns _ hmemc f false hmem


/-- Invariants of the scan state, holding at every non-aborted token
boundary: the sequence is duplicate-free and within table range, every
sequence member has a recorded path, recorded descriptors are distinct,
below the descriptor counter, backed by an `opened` event and by a
recorded path, and the scan has issued no `setns`/`close`. -/
structure PInv (st : St) : Prop where
  nodup : st.seq.Nodup
  seq_lt : ∀ i ∈ st.seq, i < NSCOUNT
  seq_paths : ∀ i ∈ st.seq, st.paths i ≠ none
  paths_seq : ∀ i, st.paths i ≠ none → i ∈ st.seq
  fds_lt : ∀ i f, st.fds i = some f → f < st.nextFd
  fds_inj : ∀ i j f, st.fds i = some f → st.fds j = some f → i = j
  fds_open : ∀ i f, st.fds i = some f → ∃ p, st.paths i = some p ∧ Event.opened f i p ∈ st.events
  fds_paths : ∀ i f, st.fds i = some f → st.paths i ≠ none
  no_setns : ∀ f j ok, Event.setns f j ok ∉ st.events
  no_closed : ∀ f, Event.closed f ∉ st.events

theorem nsLookup_lt (tok : String) (i : Nat) (h : nsLookup tok = some i) : i < NSCOUNT := by
  have := List.mem_of_find?_eq_some h
  simpa using this

theorem initSt_pinv (env : GEnv) : PInv (initSt env) := by
  constructor <;> simp [initSt]

theorem parseTok_lateopen_ok (sys : Sys) (st : St) (tok0 tok : String) (i : Nat) (p : String)
    (hm : stripMark tok0 = (false, tok))
    (hl : nsLookup tok = some i)
    (he : st.env (nsEnvvar i) = some p)
    (hp : p ≠ "")
    (hq : st.paths i = none) :
    parseTok sys st tok0 =
      ({ st with paths := upd st.paths i (some p), seq := st.seq ++ [i] }, false) := by
  unfold parseTok pathCheck
  rw [hm]
  simp only [hl, he, if_neg hp, hq]
  rfl

theorem pinv_append_late (st : St) (i : Nat) (p : String) (hinv : PInv st)
    (hilt : i < NSCOUNT) (hq : st.paths i = none) :
    PInv { st with paths := upd st.paths i (some p), seq := st.seq ++ [i] } := by
  have hnotmem : i ∉ st.seq := fun hmem => (hinv.seq_paths i hmem) hq
  constructor
  · show (st.seq ++ [i]).Nodup
    rw [List.nodup_append]
    refine ⟨hinv.nodup, by simp, ?_⟩
    intro a ha hb
    simp at hb
    subst hb
    exact hnotmem ha
  · intro j hj
    rcases List.mem_append.mp hj with h | h
    · exact hinv.seq_lt j h
    · simp at h
      subst h
      exact hilt
  · intro j hj
    show upd st.paths i (some p) j ≠ none
    by_cases hij : j = i
    · subst hij
      simp [upd]
    · rcases List.mem_append.mp hj with h | h
      · simp only [upd, if_neg hij]
        exact hinv.seq_paths j h
      · simp at h
        exact absurd h hij
  · intro j hj
    by_cases hij : j = i
    · subst hij
      simp
    · apply List.mem_append_left
      apply hinv.paths_seq
      simpa [upd, hij] using hj
  · exact hinv.fds_lt
  · exact hinv.fds_inj
  · intro j f hf
    rcases hinv.fds_open j f hf with ⟨p', hp', hmem⟩
    have hij : j ≠ i := by
      intro h
      subst h
      rw [hp'] at hq
      simp at hq
    exact ⟨p', by simpa [upd, hij] using hp', hmem⟩
  · intro j f hf
    have hij : j ≠ i := by
      intro h
      subst h
      exact (hinv.fds_paths _ f hf) hq
    show upd st.paths i (some p) j ≠ none
    simp only [upd, if_neg hij]
    exact hinv.fds_paths j f hf
  · exact hinv.no_setns
  · exact hinv.no_closed

theorem pinv_append_pre (st : St) (i : Nat) (p : String) (hinv : PInv st)
    (hilt : i < NSCOUNT) (hq : st.paths i = none) (hfd : st.fds i = none) :
    PInv { st with
            fds := upd st.fds i (some st.nextFd),
            nextFd := st.nextFd + 1,
            events := st.events ++ [.opened st.nextFd i p],
            paths := upd st.paths i (some p),
            seq := st.seq ++ [i] } := by
  have hnotmem : i ∉ st.seq := fun hmem => (hinv.seq_paths i hmem) hq
  constructor
  · show (st.seq ++ [i]).Nodup
    rw [List.nodup_append]
    refine ⟨hinv.nodup, by simp, ?_⟩
    intro a ha hb
    simp at hb
    subst hb
    exact hnotmem ha
  · intro j hj
    rcases List.mem_append.mp hj with h | h
    · exact hinv.seq_lt j h
    · simp at h
      subst h
      exact hilt
  · intro j hj
    show upd st.paths i (some p) j ≠ none
    by_cases hij : j = i
    · subst hij
      simp [upd]
    · rcases List.mem_append.mp hj with h | h
      · simp only [upd, if_neg hij]
        exact hinv.seq_paths j h
      · simp at h
        exact absurd h hij
  · intro j hj
    by_cases hij : j = i
    · subst hij
      simp
    · apply List.mem_append_left
      apply hinv.paths_seq
      simpa [upd, hij] using hj
  · intro j f hf0
    show f < st.nextFd + 1
    have hf : upd st.fds i (some st.nextFd) j = some f := hf0
    by_cases hij : j = i
    · subst hij
      simp only [upd, if_pos rfl] at hf
      simp at hf
      omega
    · simp only [upd, if_neg hij] at hf
      have := hinv.fds_lt j f hf
      omega
  · intro j j' f hf0 hf0'
    have hf : upd st.fds i (some st.nextFd) j = some f := hf0
    have hf' : upd st.fds i (some st.nextFd) j' = some f := hf0'
    by_cases hij : j = i <;> by_cases hij' : j' = i
    · omega
    · exfalso
      subst hij
      simp only [upd, if_pos rfl] at hf
      simp only [upd, if_neg hij'] at hf'
      have := hinv.fds_lt j' f hf'
      simp at hf
      omega
    · exfalso
      subst hij'
      simp only [upd, if_pos rfl] at hf'
      simp only [upd, if_neg hij] at hf
      have := hinv.fds_lt j f hf
      simp at hf'
      omega
    · simp only [upd, if_neg hij] at hf
      simp only [upd, if_neg hij'] at hf'
      exact hinv.fds_inj j j' f hf hf'
  · intro j f hf0
    have hf : upd st.fds i (some st.nextFd) j = some f := hf0
    by_cases hij : j = i
    · subst hij
      simp only [upd, if_pos rfl] at hf
      refine ⟨p, by simp [upd], ?_⟩
      apply List.mem_append_right
      simp at hf
      simp [hf]
    · simp only [upd, if_neg hij] at hf
      rcases hinv.fds_open j f hf with ⟨p', hp', hmem⟩
      exact ⟨p', by simpa [upd, hij] using hp', List.mem_append_left _ hmem⟩
  · intro j f hf0
    have hf : upd st.fds i (some st.nextFd) j = some f := hf0
    show upd st.paths i (some p) j ≠ none
    by_cases hij : j = i
    · subst hij
      simp [upd]
    · simp only [upd, if_neg hij] at hf
      simp only [upd, if_neg hij]
      exact hinv.fds_paths j f hf
  · intro f j ok hmem
    rcases List.mem_append.mp hmem with h | h
    · exact hinv.no_setns f j ok h
    · simp at h
  · intro f hmem
    rcases List.mem_append.mp hmem with h | h
    · exact hinv.no_closed f h
    · simp at h

theorem parseTok_pinv (sys : Sys) (st : St) (tok0 : String) (st1 : St)
    (hstep : parseTok sys st tok0 = (st1, false)) (hinv : PInv st) : PInv st1 := by
  rcases hl : nsLookup (stripMark tok0).2 with _ | i
  · rw [parseTok_unknown sys st tok0 hl] at hstep
    simp at hstep
  · have hilt : i < NSCOUNT := nsLookup_lt _ i hl
    rcases he : st.env (nsEnvvar i) with _ | p
    · rw [parseTok_skip_unset sys st tok0 i hl (Or.inl he)] at hstep
      cases hstep
      exact hinv
    · by_cases hp : p = ""
      · subst hp
        rw [parseTok_skip_unset sys st tok0 i hl (Or.inr he)] at hstep
        cases hstep
        exact hinv
      · rcases hm : stripMark tok0 with ⟨fdref, tok⟩
        have hl' : nsLookup tok = some i := by
          rw [hm] at hl
          exact hl
        cases fdref
        · -- late-open
          rcases hq : st.paths i with _ | q
          · rw [parseTok_lateopen_ok sys st tok0 tok i p hm hl' he hp hq] at hstep
            cases hstep
            exact pinv_append_late st i p hinv hilt hq
          · rw [parseTok_dup_lateopen sys st tok0 tok i p q hm hl' he hp hq] at hstep
            simp at hstep
        · -- pre-open
          rcases hfd : st.fds i with _ | f
          · rcases ho : sys.openOk p with _ | _
            · rw [parseTok_preopen_openfail sys st tok0 tok i p hm hl' he hp hfd ho] at hstep
              simp at hstep
            · rcases hq : st.paths i with _ | q
              · rw [parseTok_preopen_ok sys st tok0 tok i p hm hl' he hp hfd ho hq] at hstep
                cases hstep
                exact pinv_append_pre st i p hinv hilt hq hfd
              · rw [parseTok_dup_preopen_open_then_fail sys st tok0 tok i p q hm hl' he hp hfd ho hq]
                  at hstep
                simp at hstep
          · rw [parseTok_dup_preopen_fdset sys st tok0 tok i f p hm hl' he hp hfd] at hstep
            simp at hstep

theorem parseGo_pinv (sys : Sys) (ts : List String) : ∀ (st st1 : St),
    parseGo sys ts st = (st1, false) → PInv st → PInv st1 := by
  induction ts with
  | nil =>
      intro st st1 h hinv
      cases h
      exact hinv
  | cons t rest ih =>
      intro st st1 h hinv
      have hdef : parseGo sys (t :: rest) st =
          if st.seq.length < NSCOUNT then
            match parseTok sys st t with
            | (st2, true) => (st2, true)
            | (st2, false) => parseGo sys rest st2
          else (st, false) := rfl
      rw [hdef] at h
      split at h
      · rcases hpt : parseTok sys st t with ⟨st2, ab⟩
        rw [hpt] at h
        cases ab
        · exact ih st2 st1 h (parseTok_pinv sys st t st2 hpt hinv)
        · simp at h
      · cases h
        exact hinv


theorem setnsCount_eq_zero (es : List Event) (f : Nat)
    (h : ∀ f' j ok, Event.setns f' j ok ∉ es) : setnsCount es f = 0 := by
  rw [setnsCount, List.countP_eq_zero]
  intro e he
  rcases e with ⟨f', i', p'⟩ | f' | ⟨f', i', ok'⟩
  · simp
  · simp
  · exact absurd he (h f' i' ok')

theorem closedCount_eq_zero (es : List Event) (f : Nat)
    (h : ∀ f', Event.closed f' ∉ es) : closedCount es f = 0 := by
  rw [closedCount, List.countP_eq_zero]
  intro e he
  rcases e with ⟨f', i', p'⟩ | f' | ⟨f', i', ok'⟩
  · simp
  · exact absurd he (h f')
  · simp

theorem setnsCount_pos_of_mem {es : List Event} {f i : Nat} {ok : Bool}
    (h : Event.setns f i ok ∈ es) : 1 ≤ setnsCount es f := by
  rw [setnsCount]
  exact List.countP_pos_iff.mpr ⟨_, h, by simp⟩

theorem joinGo_balance (sys : Sys) (l : List Nat) : ∀ (st : St),
    (∀ f, closedCount st.events f = setnsCount st.events f) →
    ∀ f, closedCount (joinGo sys l st).1.events f = setnsCount (joinGo sys l st).1.events f := by
  induction l with
  | nil => exact fun st h f => h f
  | cons i rest ih =>
      intro st h f
      have hdef : joinGo sys (i :: rest) st =
          match joinEntry sys st i with
          | (st1, true) => (st1, true)
          | (st1, false) => joinGo sys rest st1 := rfl
      rcases hje : joinEntry sys st i with ⟨st1, ab⟩
      have hchar := joinEntry_char sys st i
      rw [hje] at hchar
      have hbal1 : ∀ f', closedCount st1.events f' = setnsCount st1.events f' := by
        intro f'
        rcases hchar with ⟨fd, hev, _, _⟩ | ⟨fd, hev, _, _⟩ | ⟨hev, _, _, _⟩
        · rcases hev with ⟨_, _, hev⟩ | ⟨_, _, _, hev⟩ <;>
            rw [show st1.events = _ from hev] <;>
            simp [closedCount, setnsCount, List.countP_append, List.countP_cons] <;>
            have := h f' <;>
            simp [closedCount, setnsCount] at this <;>
            omega
        · rcases hev with ⟨_, _, hev⟩ | ⟨_, _, _, hev⟩ <;>
            rw [show st1.events = _ from hev] <;>
            simp [closedCount, setnsCount, List.countP_append, List.countP_cons] <;>
            have := h f' <;>
            simp [closedCount, setnsCount] at this <;>
            omega
        · rw [show st1.events = st.events from hev]
          exact h f'
      rw [hdef, hje]
      cases ab
      · exact ih st1 hbal1 f
      · exact hbal1 f


theorem setnsCount_append (es1 es2 : List Event) (f : Nat) :
    setnsCount (es1 ++ es2) f = setnsCount es1 f + setnsCount es2 f :=
  List.countP_append ..

theorem joinGo_setns_once (sys : Sys) (l : List Nat) : ∀ (st : St),
    l.Nodup →
    (∀ f, st.nextFd ≤ f → setnsCount st.events f = 0) →
    (∀ i ∈ l, ∀ f, st.fds i = some f → setnsCount st.events f = 0) →
    (∀ f, setnsCount st.events f ≤ 1) →
    (∀ i f, st.fds i = some f → f < st.nextFd) →
    (∀ i j f, st.fds i = some f → st.fds j = some f → i = j) →
    ∀ f, setnsCount (joinGo sys l st).1.events f ≤ 1 := by
  induction l with
  | nil => exact fun st _ _ _ hle1 _ _ f => hle1 f
  | cons i rest ih =>
      intro st hnd hge hfds0 hle1 hlt hinj f
      have hdef : joinGo sys (i :: rest) st =
          match joinEntry sys st i with
          | (st1, true) => (st1, true)
          | (st1, false) => joinGo sys rest st1 := rfl
      have hnd' := List.nodup_cons.mp hnd
      rcases hje : joinEntry sys st i with ⟨st1, ab⟩
      have hchar := joinEntry_char sys st i
      rw [hje] at hchar
      have hsame := joinEntry_same sys st i
      rw [hje] at hsame
      have hfds1 : st1.fds = st.fds := hsame.2.1
      -- the one setns the entry performs, its descriptor, and the new counter
      have hseg : (∃ fd0 E, st1.events = st.events ++ E ∧
          (∀ f', setnsCount E f' = if fd0 = f' then 1 else 0) ∧
          ((st.fds i = some fd0 ∧ st1.nextFd = st.nextFd) ∨
           (fd0 = st.nextFd ∧ st1.nextFd = st.nextFd + 1))) ∨
          (st1.events = st.events ∧ st1.nextFd = st.nextFd) := by
        rcases hchar with ⟨fd, hev, _, _⟩ | ⟨fd, hev, _, _⟩ | ⟨hev, hnf, _, _⟩
        · rcases hev with ⟨hf, hnf, hev⟩ | ⟨hf, hfd, hnf, hev⟩
          · refine Or.inl ⟨fd, [Event.setns fd i true, Event.closed fd], hev, ?_,
              Or.inl ⟨hf, hnf⟩⟩
            intro f'
            simp only [setnsCount, List.countP_cons, List.countP_nil]
            by_cases hbe : fd = f' <;> simp [hbe]
          · refine Or.inl ⟨fd, [Event.opened fd i ((st.paths i).getD ""),
              Event.setns fd i true, Event.closed fd], hev, ?_, Or.inr ⟨hfd, hnf⟩⟩
            intro f'
            simp only [setnsCount, List.countP_cons, List.countP_nil]
            by_cases hbe : fd = f' <;> simp [hbe]
        · rcases hev with ⟨hf, hnf, hev⟩ | ⟨hf, hfd, hnf, hev⟩
          · refine Or.inl ⟨fd, [Event.setns fd i false, Event.closed fd], hev, ?_,
              Or.inl ⟨hf, hnf⟩⟩
            intro f'
            simp only [setnsCount, List.countP_cons, List.countP_nil]
            by_cases hbe : fd = f' <;> simp [hbe]
          · refine Or.inl ⟨fd, [Event.opened fd i ((st.paths i).getD ""),
              Event.setns fd i false, Event.closed fd], hev, ?_, Or.inr ⟨hfd, hnf⟩⟩
            intro f'
            simp only [setnsCount, List.countP_cons, List.countP_nil]
            by_cases hbe : fd = f' <;> simp [hbe]
        · exact Or.inr ⟨hev, hnf⟩
      have key : (∀ f', st1.nextFd ≤ f' → setnsCount st1.events f' = 0) ∧
          (∀ i' ∈ rest, ∀ f', st1.fds i' = some f' → setnsCount st1.events f' = 0) ∧
          (∀ f', setnsCount st1.events f' ≤ 1) := by
        rcases hseg with ⟨fd0, E, hev, hcnt, hprov⟩ | ⟨hev, hnf⟩
        · have hcount : ∀ f', setnsCount st1.events f' =
              setnsCount st.events f' + (if fd0 = f' then 1 else 0) := by
            intro f'
            rw [hev, setnsCount_append, hcnt f']
          have hfd0lt : fd0 < st1.nextFd := by
            rcases hprov with ⟨hf, hnf⟩ | ⟨hfd, hnf⟩
            · rw [hnf]
              exact hlt i fd0 hf
            · omega
          refine ⟨?_, ?_, ?_⟩
          · intro f' hf'
            rw [hcount f']
            have h1 : setnsCount st.events f' = 0 := by
              apply hge
              rcases hprov with ⟨_, hnf⟩ | ⟨_, hnf⟩ <;> omega
            have h2 : fd0 ≠ f' := by omega
            simp [h1, h2]
          · intro i' hi' f' hf'
            rw [hfds1] at hf'
            rw [hcount f']
            have h1 : setnsCount st.events f' = 0 :=
              hfds0 i' (List.mem_cons_of_mem _ hi') f' hf'
            have h2 : fd0 ≠ f' := by
              intro h
              subst h
              rcases hprov with ⟨hf, _⟩ | ⟨hfd, _⟩
              · exact hnd'.1 (hinj i i' fd0 hf hf' ▸ hi')
              · have := hlt i' fd0 hf'
                omega
            simp [h1, h2]
          · intro f'
            rw [hcount f']
            by_cases h2 : fd0 = f'
            · subst h2
              have h1 : setnsCount st.events fd0 = 0 := by
                rcases hprov with ⟨hf, _⟩ | ⟨hfd, _⟩
                · exact hfds0 i (List.mem_cons_self ..) fd0 hf
                · apply hge
                  omega
              simp [h1]
            · have := hle1 f'
              simp [h2]
              omega
        · rw [hev]
          refine ⟨fun f' hf' => hge f' (by omega), ?_, hle1⟩
          intro i' hi' f' hf'
          rw [hfds1] at hf'
          exact hfds0 i' (List.mem_cons_of_mem _ hi') f' hf'
      rw [hdef, hje]
      cases ab
      · exact ih st1 hnd'.2 key.1 key.2.1 key.2.2
          (fun i' f' hf' => by
            rw [hfds1] at hf'
            have := hlt i' f' hf'
            rcases hseg with ⟨fd0, E, _, _, hprov⟩ | ⟨_, hnf⟩
            · rcases hprov with ⟨_, hnf⟩ | ⟨_, hnf⟩ <;> omega
            · omega)
          (fun i' j' f' h1 h2 => by
            rw [hfds1] at h1 h2
            exact hinj i' j' f' h1 h2) f
      · exact key.2.2 f


theorem joinGo_fd_exact (sys : Sys) (l : List Nat) : ∀ (st : St) (i fd : Nat),
    l.Nodup → st.fds i = some fd →
    (∀ f ok, Event.setns f i ok ∉ st.events) →
    ∀ f ok, Event.setns f i ok ∈ (joinGo sys l st).1.events → f = fd := by
  induction l with
  | nil =>
      intro st i fd _ _ hno f ok hmem
      exact absurd hmem (hno f ok)
  | cons j rest ih =>
      intro st i fd hnd hfd hno f ok hmem
      have hdef : joinGo sys (j :: rest) st =
          match joinEntry sys st j with
          | (st1, true) => (st1, true)
          | (st1, false) => joinGo sys rest st1 := rfl
      have hnd' := List.nodup_cons.mp hnd
      rcases hje : joinEntry sys st j with ⟨st1, ab⟩
      have hchar := joinEntry_char sys st j
      rw [hje] at hchar
      have hsame := joinEntry_same sys st j
      rw [hje] at hsame
      have hfds1 : st1.fds = st.fds := hsame.2.1
      -- every event of st1 is an old event or belongs to the one segment for j
      have hst1 : ∀ f' ok', Event.setns f' i ok' ∈ st1.events →
          Event.setns f' i ok' ∈ st.events ∨ (i = j ∧ f' = fd) := by
        intro f' ok' hm
        rcases hchar with ⟨fd', hev, _, _⟩ | ⟨fd', hev, _, _⟩ | ⟨hev, _, _, _⟩
        · rcases hev with ⟨hf, _, hev⟩ | ⟨hf, hfd', _, hev⟩ <;> rw [show st1.events = _ from hev] at hm <;>
            simp at hm <;> rcases hm with hm | hm
          · exact Or.inl hm
          · refine Or.inr ⟨hm.2.1, ?_⟩
            rcases hm with ⟨rfl, rfl, _⟩
            rw [hf] at hfd
            exact Option.some_inj.mp hfd
          · exact Or.inl hm
          · exfalso
            rcases hm with ⟨_, rfl, _⟩
            rw [hf] at hfd
            simp at hfd
        · rcases hev with ⟨hf, _, hev⟩ | ⟨hf, hfd', _, hev⟩ <;> rw [show st1.events = _ from hev] at hm <;>
            simp at hm <;> rcases hm with hm | hm
          · exact Or.inl hm
          · refine Or.inr ⟨hm.2.1, ?_⟩
            rcases hm with ⟨rfl, rfl, _⟩
            rw [hf] at hfd
            exact Option.some_inj.mp hfd
          · exact Or.inl hm
          · exfalso
            rcases hm with ⟨_, rfl, _⟩
            rw [hf] at hfd
            simp at hfd
        · rw [show st1.events = st.events from hev] at hm
          exact Or.inl hm
      rw [hdef, hje] at hmem
      cases ab
      · -- continued into rest
        by_cases hij : i = j
        · -- i's own entry was just processed; rest adds no i-events
          subst hij
          rcases joinGo_scope sys rest st1 _ hmem with h | h | h | h
          · rcases hst1 f ok h with h2 | ⟨_, h2⟩
            · exact absurd h2 (hno f ok)
            · exact h2
          · rcases h with ⟨f', j', ok', hj', heq⟩
            rcases heq with ⟨rfl, rfl, rfl⟩
            exact absurd hj' hnd'.1
          · rcases h with ⟨f', j', p', hj', heq⟩
            exact absurd heq (by simp)
          · rcases h with ⟨f', heq⟩
            exact absurd heq (by simp)
        · -- i unprocessed: recurse
          have hno1 : ∀ f' ok', Event.setns f' i ok' ∉ st1.events := by
            intro f' ok' hm
            rcases hst1 f' ok' hm with h2 | ⟨h2, _⟩
            · exact hno f' ok' h2
            · exact hij h2
          exact ih st1 i fd hnd'.2 (hfds1 ▸ hfd) hno1 f ok hmem
      · -- aborted at entry j
        rcases hst1 f ok hmem with h2 | ⟨_, h2⟩
        · exact absurd h2 (hno f ok)
        · exact h2

theorem joinGo_no_reopen (sys : Sys) (l : List Nat) : ∀ (st : St) (i fd : Nat),
    st.fds i = some fd →
    ∀ f p, Event.opened f i p ∈ (joinGo sys l st).1.events → Event.opened f i p ∈ st.events := by
  induction l with
  | nil =>
      intro st i fd _ f p hmem
      exact hmem
  | cons j rest ih =>
      intro st i fd hfd f p hmem
      have hdef : joinGo sys (j :: rest) st =
          match joinEntry sys st j with
          | (st1, true) => (st1, true)
          | (st1, false) => joinGo sys rest st1 := rfl
      rcases hje : joinEntry sys st j with ⟨st1, ab⟩
      have hchar := joinEntry_char sys st j
      rw [hje] at hchar
      have hsame := joinEntry_same sys st j
      rw [hje] at hsame
      have hfds1 : st1.fds = st.fds := hsame.2.1
      have hst1 : ∀ f' p', Event.opened f' i p' ∈ st1.events →
          Event.opened f' i p' ∈ st.events := by
        intro f' p' hm
        rcases hchar with ⟨fd', hev, _, _⟩ | ⟨fd', hev, _, _⟩ | ⟨hev, _, _, _⟩
        · rcases hev with ⟨hf, _, hev⟩ | ⟨hf, hfd', _, hev⟩ <;> rw [show st1.events = _ from hev] at hm <;>
            simp at hm
          · exact hm
          · rcases hm with hm | hm
            · exact hm
            · exfalso
              rcases hm with ⟨_, rfl, _⟩
              rw [hf] at hfd
              simp at hfd
        · rcases hev with ⟨hf, _, hev⟩ | ⟨hf, hfd', _, hev⟩ <;> rw [show st1.events = _ from hev] at hm <;>
            simp at hm
          · exact hm
          · rcases hm with hm | hm
            · exact hm
            · exfalso
              rcases hm with ⟨_, rfl, _⟩
              rw [hf] at hfd
              simp at hfd
        · rw [show st1.events = st.events from hev] at hm
          exact hm
      rw [hdef, hje] at hmem
      cases ab
      · exact hst1 f p (ih st1 i fd (hfds1 ▸ hfd) f p hmem)
      · exact hst1 f p hmem


/-- C2: for every computed join sequence, if the kernel join of the
entry at position `k` fails, every entry before `k` was joined
successfully, no entry after `k` is ever attempted in the switch loop
(no `setns` at all, and no `open` beyond those the scan already
performed), and the recorded message carries the failing entry's
variable name and its recorded path; the rendered message text contains
the entry's symbolic name and the path. -/
theorem c2_first_failure (sys : Sys) (env : GEnv) (k : Nat)
    (hab : (gonsParse sys (initSt env)).2 = false)
    (hk : k < (gonsParse sys (initSt env)).1.seq.length)
    (hfail : ∃ f, Event.setns f ((gonsParse sys (initSt env)).1.seq.getD k 0) false ∈
        (runGons sys env).events) :
    (∀ j, j < k → ∃ f, Event.setns f ((gonsParse sys (initSt env)).1.seq.getD j 0) true ∈
        (runGons sys env).events)
  ∧ (∀ j, k < j → j < (gonsParse sys (initSt env)).1.seq.length →
      (∀ f ok, Event.setns f ((gonsParse sys (initSt env)).1.seq.getD j 0) ok ∉
          (runGons sys env).events)
    ∧ (∀ f p, Event.opened f ((gonsParse sys (initSt env)).1.seq.getD j 0) p ∈
          (runGons sys env).events →
        Event.opened f ((gonsParse sys (initSt env)).1.seq.getD j 0) p ∈
          (gonsParse sys (initSt env)).1.events))
  ∧ (∃ p, (gonsParse sys (initSt env)).1.paths
        ((gonsParse sys (initSt env)).1.seq.getD k 0) = some p
      ∧ (runGons sys env).msg =
          some (.cannotJoin (nsEnvvar ((gonsParse sys (initSt env)).1.seq.getD k 0)) p)
      ∧ (nsSymbol ((gonsParse sys (initSt env)).1.seq.getD k 0)).data <:+:
          (renderMsg (.cannotJoin (nsEnvvar ((gonsParse sys (initSt env)).1.seq.getD k 0)) p)).data
      ∧ p.data <:+:
          (renderMsg
            (.cannotJoin (nsEnvvar ((gonsParse sys (initSt env)).1.seq.getD k 0)) p)).data) := by
  rcases hpp : gonsParse sys (initSt env) with ⟨st1, ab⟩
  rw [hpp] at hab hk hfail
  have hab' : ab = false := hab
  subst hab'
  have hrun : runGons sys env = (joinGo sys st1.seq st1).1 := by
    show runGonsFrom sys (initSt env) = _
    have hdef : runGonsFrom sys (initSt env) =
        (match gonsParse sys (initSt env) with
        | (s1, true) => s1
        | (s1, false) => (joinGo sys s1.seq s1).1) := rfl
    rw [hdef, hpp]
  have hpp' : parseGo sys (tokensOf (orderString (initSt env).env))
      { initSt env with seq := [] } = (st1, false) := hpp
  have hinv : PInv st1 :=
    parseGo_pinv sys (tokensOf (orderString (initSt env).env)) _ st1 hpp' (initSt_pinv env)
  rw [hrun] at hfail ⊢
  rcases joinGo_first_failure sys st1.seq st1 hinv.nodup
    (fun i _ f ok => hinv.no_setns f i ok) hinv.seq_paths k hk hfail with ⟨A, B, C⟩
  refine ⟨A, B, ?_⟩
  rcases C with ⟨p, hp, hm⟩
  have hlt7 : st1.seq.getD k 0 < NSCOUNT := hinv.seq_lt _ (getD_mem_of_lt 0 hk)
  exact ⟨p, hp, hm, (mention_cannotJoin _ p hlt7).1, (mention_cannotJoin _ p hlt7).2⟩

/-- C9: for every pre-open entry whose join is reached, the descriptor
recorded by the scan is the one opened during the scan for the recorded
path, every `setns` issued for the entry uses exactly that descriptor
(no re-opening occurs for it during the switch loop), and the
descriptor is closed exactly once — whether the join succeeded or
failed. -/
theorem c9_preopen_roundtrip (sys : Sys) (env : GEnv) (i fd : Nat)
    (hab : (gonsParse sys (initSt env)).2 = false)
    (hfd : (gonsParse sys (initSt env)).1.fds i = some fd)
    (hreach : ∃ f ok, Event.setns f i ok ∈ (runGons sys env).events) :
    (∃ p, (gonsParse sys (initSt env)).1.paths i = some p ∧
        Event.opened fd i p ∈ (gonsParse sys (initSt env)).1.events)
  ∧ (∀ f ok, Event.setns f i ok ∈ (runGons sys env).events → f = fd)
  ∧ (∀ f p, Event.opened f i p ∈ (runGons sys env).events →
        Event.opened f i p ∈ (gonsParse sys (initSt env)).1.events)
  ∧ closedCount (runGons sys env).events fd = 1 := by
  rcases hpp : gonsParse sys (initSt env) with ⟨st1, ab⟩
  rw [hpp] at hab hfd
  have hab' : ab = false := hab
  subst hab'
  have hfd' : st1.fds i = some fd := hfd
  have hrun : runGons sys env = (joinGo sys st1.seq st1).1 := by
    show runGonsFrom sys (initSt env) = _
    have hdef : runGonsFrom sys (initSt env) =
        (match gonsParse sys (initSt env) with
        | (s1, true) => s1
        | (s1, false) => (joinGo sys s1.seq s1).1) := rfl
    rw [hdef, hpp]
  have hpp' : parseGo sys (tokensOf (orderString (initSt env).env))
      { initSt env with seq := [] } = (st1, false) := hpp
  have hinv : PInv st1 :=
    parseGo_pinv sys (tokensOf (orderString (initSt env).env)) _ st1 hpp' (initSt_pinv env)
  rw [hrun] at hreach ⊢
  have hexact : ∀ f ok, Event.setns f i ok ∈ (joinGo sys st1.seq st1).1.events → f = fd :=
    joinGo_fd_exact sys st1.seq st1 i fd hinv.nodup hfd' (fun f ok => hinv.no_setns f i ok)
  refine ⟨hinv.fds_open i fd hfd', hexact,
    joinGo_no_reopen sys st1.seq st1 i fd hfd', ?_⟩
  have honce : ∀ f, setnsCount (joinGo sys st1.seq st1).1.events f ≤ 1 :=
    joinGo_setns_once sys st1.seq st1 hinv.nodup
      (fun f _ => setnsCount_eq_zero _ _ hinv.no_setns)
      (fun i' _ f' _ => setnsCount_eq_zero _ _ hinv.no_setns)
      (fun f => by rw [setnsCount_eq_zero _ _ hinv.no_setns]; omega)
      hinv.fds_lt hinv.fds_inj
  have hbal : ∀ f, closedCount (joinGo sys st1.seq st1).1.events f =
      setnsCount (joinGo sys st1.seq st1).1.events f :=
    joinGo_balance sys st1.seq st1 (fun f => by
      rw [closedCount_eq_zero _ _ hinv.no_closed, setnsCount_eq_zero _ _ hinv.no_setns])
  rcases hreach with ⟨f, ok, hm⟩
  have hffd : f = fd := hexact f ok hm
  subst hffd
  have hge1 : 1 ≤ setnsCount (joinGo sys st1.seq st1).1.events f := setnsCount_pos_of_mem hm
  have hle1 := honce f
  rw [hbal f]
  omega


/-- C6 counterexample: with two pre-opened entries and the first join
failing, the second entry's pre-opened descriptor (number 1) is never
closed before the operation returns — it is leaked — while the failing
descriptor (number 0) IS closed; both directions contradict the claim
as stated. -/
theorem c6_counterexample :
    Event.opened 1 4 "/pid" ∈ (runGons sysFailFd0 envTwoPre).events ∧
    (runGons sysFailFd0 envTwoPre).msg = some (.cannotJoin "gons_net" "/net") ∧
    Event.closed 1 ∉ (runGons sysFailFd0 envTwoPre).events ∧
    Event.closed 0 ∈ (runGons sysFailFd0 envTwoPre).events := by decide

/-- C6 (amended): over any invocation, exactly the descriptors passed
to the kernel `setns` call are closed — each descriptor is closed as
often as it is joined, and at most once.  In particular, descriptors
opened but never passed to `setns` (pre-opened descriptors of entries
whose join is never reached, on any failure path) are not closed before
returning. -/
theorem c6_close_balance (sys : Sys) (env : GEnv) (f : Nat) :
    closedCount (runGons sys env).events f = setnsCount (runGons sys env).events f ∧
    setnsCount (runGons sys env).events f ≤ 1 := by
  rcases hpp : gonsParse sys (initSt env) with ⟨st1, ab⟩
  have hpp' : parseGo sys (tokensOf (orderString (initSt env).env))
      { initSt env with seq := [] } = (st1, ab) := hpp
  have hop := parseGo_events_opened sys (tokensOf (orderString (initSt env).env))
    { initSt env with seq := [] }
  rw [hpp'] at hop
  have hns : ∀ f' j ok, Event.setns f' j ok ∉ st1.events := by
    intro f' j ok hm
    rcases hop _ hm with h | ⟨f'', i'', p'', heq⟩
    · simp [initSt] at h
    · exact absurd heq (by simp)
  have hnc : ∀ f', Event.closed f' ∉ st1.events := by
    intro f' hm
    rcases hop _ hm with h | ⟨f'', i'', p'', heq⟩
    · simp [initSt] at h
    · exact absurd heq (by simp)
  cases ab
  · have hrun : runGons sys env = (joinGo sys st1.seq st1).1 := by
      show runGonsFrom sys (initSt env) = _
      have hdef : runGonsFrom sys (initSt env) =
          (match gonsParse sys (initSt env) with
          | (s1, true) => s1
          | (s1, false) => (joinGo sys s1.seq s1).1) := rfl
      rw [hdef, hpp]
    have hinv : PInv st1 :=
      parseGo_pinv sys (tokensOf (orderString (initSt env).env)) _ st1 hpp' (initSt_pinv env)
    rw [hrun]
    constructor
    · exact joinGo_balance sys st1.seq st1 (fun f' => by
        rw [closedCount_eq_zero _ _ hnc, setnsCount_eq_zero _ _ hns]) f
    · exact joinGo_setns_once sys st1.seq st1 hinv.nodup
        (fun f' _ => setnsCount_eq_zero _ _ hns)
        (fun i' _ f' _ => setnsCount_eq_zero _ _ hns)
        (fun f' => by rw [setnsCount_eq_zero _ _ hns]; omega)
        hinv.fds_lt hinv.fds_inj f
  · have hrun : runGons sys env = st1 := by
      show runGonsFrom sys (initSt env) = _
      have hdef : runGonsFrom sys (initSt env) =
          (match gonsParse sys (initSt env) with
          | (s1, true) => s1
          | (s1, false) => (joinGo sys s1.seq s1).1) := rfl
      rw [hdef, hpp]
    rw [hrun]
    refine ⟨?_, ?_⟩
    · rw [closedCount_eq_zero _ _ hnc, setnsCount_eq_zero _ _ hns]
    · rw [setnsCount_eq_zero _ _ hns]
      omega

/-- C2 witness: order `net,pid`, the second join fails. -/
theorem c2_first_failure_witness :
    (∃ f, Event.setns f ((gonsParse sysFailFd1 (initSt envNetPid)).1.seq.getD 0 0) true ∈
        (runGons sysFailFd1 envNetPid).events) ∧
    (∃ p, (gonsParse sysFailFd1 (initSt envNetPid)).1.paths
          ((gonsParse sysFailFd1 (initSt envNetPid)).1.seq.getD 1 0) = some p
      ∧ (runGons sysFailFd1 envNetPid).msg =
          some (.cannotJoin
            (nsEnvvar ((gonsParse sysFailFd1 (initSt envNetPid)).1.seq.getD 1 0)) p)
      ∧ (nsSymbol ((gonsParse sysFailFd1 (initSt envNetPid)).1.seq.getD 1 0)).data <:+:
          (renderMsg (.cannotJoin
            (nsEnvvar ((gonsParse sysFailFd1 (initSt envNetPid)).1.seq.getD 1 0)) p)).data
      ∧ p.data <:+:
          (renderMsg (.cannotJoin
            (nsEnvvar ((gonsParse sysFailFd1 (initSt envNetPid)).1.seq.getD 1 0)) p)).data) :=
  ⟨(c2_first_failure sysFailFd1 envNetPid 1 (by decide) (by decide) ⟨1, by decide⟩).1 0
      (by decide),
   (c2_first_failure sysFailFd1 envNetPid 1 (by decide) (by decide) ⟨1, by decide⟩).2.2⟩

/-- C9 witness: one pre-open `net` entry, joined successfully. -/
theorem c9_preopen_roundtrip_witness :
    (∃ p, (gonsParse sysAll (initSt envPreNet)).1.paths 3 = some p ∧
        Event.opened 0 3 p ∈ (gonsParse sysAll (initSt envPreNet)).1.events) ∧
    closedCount (runGons sysAll envPreNet).events 0 = 1 :=
  ⟨(c9_preopen_roundtrip sysAll envPreNet 3 0 (by decide) (by decide) ⟨0, true, by decide⟩).1,
   (c9_preopen_roundtrip sysAll envPreNet 3 0 (by decide) (by decide) ⟨0, true, by decide⟩).2.2.2⟩
